import Mathlib

/-!
# Verification of the bakalari-ha multi-child polling/diffing core

Shallow embedding of the coordinator diffing machinery
(`coordinator_marks.py`, `coordinator_messages.py`), the children index
(`children.py`), the authenticated client envelope (`api.py`) and the
mark aggregation helpers (`sensor_helpers.py` / `sensor_marks.py`).

Modelling conventions:
* Python `str` is `String`; `str.strip()` is `pyStrip` (both strip
  ASCII whitespace on the inputs that occur here).
* A dict value that is absent or `None` is modelled as `none`.
* Python dicts keyed by strings are association lists with *last-wins*
  lookup (`dlookup`) and append-style assignment (`dinsert`), which keeps
  the dict's overwrite semantics.
* Python `set` of pairs is a `List` with membership-guarded insertion
  (`addSeen`), which matches `set.add` up to list representation and is
  literally idempotent.
* Python floats are modelled as exact rationals `ℚ`; `round(x, 3)` is
  modelled by `pyRound3` (half-up at the third decimal; the concrete
  inputs used in this development are exact, so the tie-breaking mode is
  never exercised).
* The event loop is cooperative and every modelled operation runs between
  suspension points, so locks are no-ops in the model and state is
  threaded explicitly.
-/

namespace Bakalari

/-- Model of Python `str.strip()`: drop whitespace characters from both ends.
(Implemented on the character list so that it evaluates by `decide`/`rfl`.) -/
def pyStrip (s : String) : String :=
  String.mk
    (((s.toList.dropWhile Char.isWhitespace).reverse.dropWhile
        Char.isWhitespace).reverse)

/-- Seen-set as it appears in `BakalariMarksCoordinator._seen` /
`BakalariMessagesCoordinator._seen_msgs`: a set of `(child_key, id)`. -/
abbrev Seen := List (String × String)

/-- `set.add`: insert a pair unless it is already a member. -/
def addSeen (s : Seen) (p : String × String) : Seen :=
  if p ∈ s then s else p :: s

theorem mem_addSeen {s : Seen} {p q : String × String} :
    q ∈ addSeen s p ↔ q = p ∨ q ∈ s := by
  unfold addSeen
  split
  · next h => constructor
              · exact fun hq => Or.inr hq
              · rintro (rfl | hq) <;> [exact h; exact hq]
  · simp [List.mem_cons]

theorem self_mem_addSeen (s : Seen) (p : String × String) : p ∈ addSeen s p := by
  simp [mem_addSeen]

theorem addSeen_idem (s : Seen) (p : String × String) :
    addSeen (addSeen s p) p = addSeen s p := by
  unfold addSeen
  split
  · next h => simp [h]
  · next h => simp

theorem mem_addSeen_of_mem {s : Seen} {p q : String × String} (h : q ∈ s) :
    q ∈ addSeen s p := mem_addSeen.mpr (Or.inr h)

/-! ## Marks coordinator (`coordinator_marks.py`)

A raw mark dict, as consumed by the coordinator's diff step, is read only
through its `id` entry (`str(it.get("id") or "").strip()`); the remaining
entries are opaque to the coordinator and are collapsed into `payload`. -/

/-- One element of `marks_flat` as seen by `BakalariMarksCoordinator`. -/
structure MarkItem where
  idRaw : Option String
  payload : String
  deriving DecidableEq

/-- Model of `str(it.get("id") or "").strip()` (absent / `None` / empty all
give the empty string). -/
def markId (it : MarkItem) : String := pyStrip (it.idRaw.getD "")

/-- The `is_new` pass of `BakalariMarksCoordinator._async_update_data`
(lines 124-131): annotate each item against the seen-set as it is at the
start of the cycle; `is_new = bool(mark_id) and ((ck, mark_id) not in
self._seen)`. -/
def annotateItems (seen : Seen) (ck : String) (items : List MarkItem) :
    List (MarkItem × Bool) :=
  items.map fun it => (it, decide (markId it ≠ "" ∧ (ck, markId it) ∉ seen))

/-- Body of the per-item loop of `_fire_new_events`: skip empty ids, skip
already-seen pairs, otherwise add to the seen-set and fire one event. -/
def fireStep (ck : String) (acc : Seen × List (String × MarkItem)) (it : MarkItem) :
    Seen × List (String × MarkItem) :=
  let mid := markId it
  if mid = "" then acc
  else if (ck, mid) ∈ acc.1 then acc
  else (addSeen acc.1 (ck, mid), acc.2 ++ [(ck, it)])

/-- Inner loop of `_fire_new_events` for one child. -/
def fireChild (ck : String) (acc : Seen × List (String × MarkItem))
    (items : List MarkItem) : Seen × List (String × MarkItem) :=
  items.foldl (fireStep ck) acc

/-- `BakalariMarksCoordinator._fire_new_events`: iterate the per-child map,
threading the mutable seen-set, collecting the `bakalari_new_mark` events. -/
def fireNewEvents (seen : Seen) (marksByChild : List (String × List MarkItem)) :
    Seen × List (String × MarkItem) :=
  marksByChild.foldl (fun acc p => fireChild p.1 acc p.2) (seen, [])

/-- Result of one marks refresh cycle: the published annotated snapshot
(`marks_by_child`), the updated seen-set and the fired events. -/
structure MarksCycleOut where
  annotated : List (String × List (MarkItem × Bool))
  seen : Seen
  events : List (String × MarkItem)
  deriving DecidableEq

/-- Diff part of `BakalariMarksCoordinator._async_update_data`: first the
`is_new` annotation against the seen-set at cycle start, then
`_fire_new_events` (which mutates the seen-set). -/
def marksUpdateCycle (seen : Seen) (fetched : List (String × List MarkItem)) :
    MarksCycleOut :=
  let ann := fetched.map fun p => (p.1, annotateItems seen p.1 p.2)
  let fe := fireNewEvents seen fetched
  ⟨ann, fe.1, fe.2⟩

/-- A sequence of refresh cycles of one coordinator instance, returning the
final seen-set and the concatenation of all fired events. -/
def marksRun (seen : Seen) :
    List (List (String × List MarkItem)) → Seen × List (String × MarkItem)
  | [] => (seen, [])
  | f :: fs =>
    let out := marksUpdateCycle seen f
    let rest := marksRun out.seen fs
    (rest.1, out.events ++ rest.2)

/-- Number of `bakalari_new_mark` events in a trace for a given child key and
record id. -/
def countMarkEvents (evs : List (String × MarkItem)) (ck id : String) : Nat :=
  (evs.filter fun e => decide (e.1 = ck ∧ markId e.2 = id)).length

/-- Indicator of seen-set membership. -/
def seenInd (s : Seen) (p : String × String) : Nat := if p ∈ s then 1 else 0

/-! ## Messages coordinator (`coordinator_messages.py`) -/

/-- A parsed message dict, restricted to the entries probed by
`BakalariMessagesCoordinator._extract_message_id` (`id`, `message_id`,
`uuid`, `guid`, `Id`, `MessageId`, then `subject`/`title`/`date`/`created`
for the composed fallback); everything else is opaque `payload`. -/
structure Msg where
  idK : Option String
  messageIdK : Option String
  uuidK : Option String
  guidK : Option String
  idCapK : Option String
  messageIdCapK : Option String
  subjectK : Option String
  titleK : Option String
  dateK : Option String
  createdK : Option String
  payload : String
  deriving DecidableEq

/-- First probed key whose value is present and non-blank after `strip()`. -/
def firstIdCandidate : List (Option String) → Option String
  | [] => none
  | none :: r => firstIdCandidate r
  | some v :: r => if pyStrip v = "" then firstIdCandidate r else some (pyStrip v)

/-- Model of Python `s.strip("-")`: drop `-` characters from both ends. -/
def stripDashes (s : String) : String :=
  String.mk (((s.toList.dropWhile (· = '-')).reverse.dropWhile (· = '-')).reverse)

/-- `BakalariMessagesCoordinator._extract_message_id`: probe the id-like keys
in order, else compose `subject-title-date-created`, strip `-`, and return
`None` when that is empty. -/
def extractMessageId (m : Msg) : Option String :=
  match firstIdCandidate
      [m.idK, m.messageIdK, m.uuidK, m.guidK, m.idCapK, m.messageIdCapK] with
  | some s => some s
  | none =>
    let parts := [m.subjectK, m.titleK, m.dateK, m.createdK].map
      fun o => pyStrip (o.getD "")
    let composed := stripDashes (String.intercalate "-" parts)
    if composed = "" then none else some composed

/-- Accumulator of the per-child message loop: the evolving seen-set, the
annotated list built so far, and the events fired so far. -/
structure MsgsAcc where
  seen : Seen
  annotated : List (Msg × Bool)
  events : List (String × Msg)
  deriving DecidableEq

/-- Body of the per-message loop of
`BakalariMessagesCoordinator._async_update_data` (lines 122-129): compute
`is_new` against the *current* seen-set, and if new, add to the seen-set and
fire the event before appending the annotated record. -/
def msgStep (ck : String) (acc : MsgsAcc) (m : Msg) : MsgsAcc :=
  let mid := extractMessageId m
  let isNew : Bool := match mid with
    | none => false
    | some s => decide ((ck, s) ∉ acc.seen)
  match mid, isNew with
  | some s, true =>
    ⟨addSeen acc.seen (ck, s), acc.annotated ++ [(m, true)],
      acc.events ++ [(ck, m)]⟩
  | _, _ => ⟨acc.seen, acc.annotated ++ [(m, isNew)], acc.events⟩

/-- The per-child message loop. -/
def msgsChildProc (ck : String) (acc : MsgsAcc) : List Msg → MsgsAcc
  | [] => acc
  | m :: rest => msgsChildProc ck (msgStep ck acc m) rest

/-- Result of one messages refresh cycle. -/
structure MsgsCycleOut where
  seen : Seen
  byChild : List (String × List (Msg × Bool))
  events : List (String × Msg)
  deriving DecidableEq

/-- Diff part of `BakalariMessagesCoordinator._async_update_data`: the
annotation, seen-set mutation and event emission are interleaved per record
inside one loop. -/
def messagesUpdateCycle (seen : Seen) (fetched : List (String × List Msg)) :
    MsgsCycleOut :=
  fetched.foldl
    (fun acc p =>
      let o := msgsChildProc p.1 ⟨acc.seen, [], acc.events⟩ p.2
      ⟨o.seen, acc.byChild ++ [(p.1, o.annotated)], o.events⟩)
    ⟨seen, [], []⟩

/-- A sequence of messages refresh cycles. -/
def messagesRun (seen : Seen) :
    List (List (String × List Msg)) → Seen × List (String × Msg)
  | [] => (seen, [])
  | f :: fs =>
    let out := messagesUpdateCycle seen f
    let rest := messagesRun out.seen fs
    (rest.1, out.events ++ rest.2)

/-- Number of `bakalari_new_message` events for a child key and extracted
message id. -/
def countMsgEvents (evs : List (String × Msg)) (ck id : String) : Nat :=
  (evs.filter fun e => decide (e.1 = ck ∧ extractMessageId e.2 = some id)).length

/-! ## At-most-once event emission: marks side -/

theorem countMarkEvents_append (a b : List (String × MarkItem)) (ck id : String) :
    countMarkEvents (a ++ b) ck id =
      countMarkEvents a ck id + countMarkEvents b ck id := by
  simp [countMarkEvents]

theorem seenInd_le_one (s : Seen) (q : String × String) : seenInd s q ≤ 1 := by
  unfold seenInd; split <;> omega

theorem seenInd_addSeen_self (s : Seen) (p : String × String) :
    seenInd (addSeen s p) p = 1 := by
  simp [seenInd, self_mem_addSeen]

theorem seenInd_of_not_mem {s : Seen} {q : String × String} (h : q ∉ s) :
    seenInd s q = 0 := if_neg h

theorem seenInd_addSeen_le (s : Seen) (p q : String × String) :
    seenInd s q ≤ seenInd (addSeen s p) q := by
  unfold seenInd
  by_cases h : q ∈ s
  · simp [h, mem_addSeen_of_mem h]
  · simp only [h, if_neg, if_false]
    omega

theorem fireStep_le (ck : String) (s : Seen) (evs : List (String × MarkItem))
    (it : MarkItem) (q : String × String) :
    countMarkEvents (fireStep ck (s, evs) it).2 q.1 q.2 + seenInd s q ≤
      countMarkEvents evs q.1 q.2 + seenInd (fireStep ck (s, evs) it).1 q := by
  unfold fireStep
  dsimp only
  split
  · exact Nat.le_refl _
  next hmid =>
    split
    · exact Nat.le_refl _
    next hmem =>
      dsimp only
      rw [countMarkEvents_append]
      by_cases hq : q = (ck, markId it)
      · subst hq
        rw [seenInd_addSeen_self, seenInd_of_not_mem hmem]
        have h1 : countMarkEvents [(ck, it)] ck (markId it) = 1 := by
          simp [countMarkEvents]
        dsimp only at h1 ⊢
        omega
      · obtain ⟨qa, qb⟩ := q
        rw [Prod.mk.injEq] at hq
        have hne : ¬ (ck = qa ∧ markId it = qb) := by
          rintro ⟨h2, h3⟩
          exact hq ⟨h2.symm, h3.symm⟩
        have h1 : countMarkEvents [(ck, it)] qa qb = 0 := by
          simp [countMarkEvents, hne]
        have h2 := seenInd_addSeen_le s (ck, markId it) (qa, qb)
        dsimp only at h1 ⊢
        omega

theorem fireStep_seen_mono (ck : String) (acc : Seen × List (String × MarkItem))
    (it : MarkItem) {q : String × String} (h : q ∈ acc.1) :
    q ∈ (fireStep ck acc it).1 := by
  unfold fireStep
  dsimp only
  split
  · exact h
  split
  · exact h
  · exact mem_addSeen_of_mem h

theorem fireChild_le (ck : String) (items : List MarkItem) :
    ∀ (s : Seen) (evs : List (String × MarkItem)) (q : String × String),
    countMarkEvents (fireChild ck (s, evs) items).2 q.1 q.2 + seenInd s q ≤
      countMarkEvents evs q.1 q.2 + seenInd (fireChild ck (s, evs) items).1 q := by
  induction items with
  | nil => intro s evs q; simp [fireChild]
  | cons it rest ih =>
    intro s evs q
    have hstep := fireStep_le ck s evs it q
    rcases hfs : fireStep ck (s, evs) it with ⟨s1, e1⟩
    rw [hfs] at hstep
    dsimp only at hstep
    have hfold : fireChild ck (s, evs) (it :: rest) = fireChild ck (s1, e1) rest := by
      simp [fireChild, hfs]
    rw [hfold]
    have htail := ih s1 e1 q
    omega

theorem fireChild_seen_mono (ck : String) (items : List MarkItem) :
    ∀ (acc : Seen × List (String × MarkItem)) {q : String × String},
    q ∈ acc.1 → q ∈ (fireChild ck acc items).1 := by
  induction items with
  | nil => intro acc q h; exact h
  | cons it rest ih =>
    intro acc q h
    have h1 := fireStep_seen_mono ck acc it h
    have hfold : fireChild ck acc (it :: rest) = fireChild ck (fireStep ck acc it) rest := by
      simp [fireChild]
    rw [hfold]
    exact ih _ h1

theorem fireNewEvents_fold_le (byChild : List (String × List MarkItem)) :
    ∀ (s : Seen) (evs : List (String × MarkItem)) (q : String × String),
    countMarkEvents
        (byChild.foldl (fun acc p => fireChild p.1 acc p.2) (s, evs)).2 q.1 q.2
        + seenInd s q ≤
      countMarkEvents evs q.1 q.2
        + seenInd (byChild.foldl (fun acc p => fireChild p.1 acc p.2) (s, evs)).1 q := by
  induction byChild with
  | nil => intro s evs q; simp
  | cons hd tl ih =>
    intro s evs q
    have hstep := fireChild_le hd.1 hd.2 s evs q
    rcases hfc : fireChild hd.1 (s, evs) hd.2 with ⟨s1, e1⟩
    rw [hfc] at hstep
    dsimp only at hstep
    have hfold : (hd :: tl).foldl (fun acc p => fireChild p.1 acc p.2) (s, evs)
        = tl.foldl (fun acc p => fireChild p.1 acc p.2) (s1, e1) := by
      simp [hfc]
    rw [hfold]
    have htail := ih s1 e1 q
    omega

theorem fireNewEvents_fold_seen_mono (byChild : List (String × List MarkItem)) :
    ∀ (acc : Seen × List (String × MarkItem)) {q : String × String},
    q ∈ acc.1 →
      q ∈ (byChild.foldl (fun a p => fireChild p.1 a p.2) acc).1 := by
  induction byChild with
  | nil => intro acc q h; exact h
  | cons hd tl ih =>
    intro acc q h
    simp only [List.foldl_cons]
    exact ih _ (fireChild_seen_mono hd.1 hd.2 acc h)

theorem marksCycle_le (seen : Seen) (fetched : List (String × List MarkItem))
    (q : String × String) :
    countMarkEvents (marksUpdateCycle seen fetched).events q.1 q.2 + seenInd seen q ≤
      seenInd (marksUpdateCycle seen fetched).seen q := by
  have h := fireNewEvents_fold_le fetched seen [] q
  simpa [marksUpdateCycle, fireNewEvents, countMarkEvents] using h

theorem marksCycle_seen_mono (seen : Seen) (fetched : List (String × List MarkItem))
    {q : String × String} (h : q ∈ seen) :
    q ∈ (marksUpdateCycle seen fetched).seen :=
  fireNewEvents_fold_seen_mono fetched (seen, []) h

theorem marksRun_le (fetches : List (List (String × List MarkItem))) :
    ∀ (s : Seen) (q : String × String),
    countMarkEvents (marksRun s fetches).2 q.1 q.2 + seenInd s q ≤
      seenInd (marksRun s fetches).1 q := by
  induction fetches with
  | nil => intro s q; simp [marksRun, countMarkEvents]
  | cons f fs ih =>
    intro s q
    have h1 := marksCycle_le s f q
    have h2 := ih (marksUpdateCycle s f).seen q
    simp only [marksRun, countMarkEvents_append]
    omega

theorem marksRun_seen_mono (fetches : List (List (String × List MarkItem))) :
    ∀ (s : Seen) {q : String × String}, q ∈ s → q ∈ (marksRun s fetches).1 := by
  induction fetches with
  | nil => intro s q h; exact h
  | cons f fs ih =>
    intro s q h
    exact ih _ (marksCycle_seen_mono s f h)

/-! ## At-most-once event emission: messages side -/

theorem countMsgEvents_append (a b : List (String × Msg)) (ck id : String) :
    countMsgEvents (a ++ b) ck id =
      countMsgEvents a ck id + countMsgEvents b ck id := by
  simp [countMsgEvents]

theorem msgStep_le (ck : String) (acc : MsgsAcc) (m : Msg) (q : String × String) :
    countMsgEvents (msgStep ck acc m).events q.1 q.2 + seenInd acc.seen q ≤
      countMsgEvents acc.events q.1 q.2 + seenInd (msgStep ck acc m).seen q := by
  unfold msgStep
  rcases hmid : extractMessageId m with _ | s
  · exact Nat.le_refl _
  · dsimp only
    by_cases hmem : (ck, s) ∈ acc.seen
    · rw [decide_eq_false (not_not_intro hmem)]
    · rw [decide_eq_true hmem]
      dsimp only
      rw [countMsgEvents_append]
      by_cases hq : q = (ck, s)
      · subst hq
        rw [seenInd_addSeen_self, seenInd_of_not_mem hmem]
        have h1 : countMsgEvents [(ck, m)] ck s = 1 := by
          simp [countMsgEvents, hmid]
        dsimp only at h1 ⊢
        omega
      · obtain ⟨qa, qb⟩ := q
        rw [Prod.mk.injEq] at hq
        have hne : ¬ (ck = qa ∧ extractMessageId m = some qb) := by
          rintro ⟨h2, h3⟩
          rw [hmid] at h3
          injection h3 with h4
          exact hq ⟨h2.symm, h4.symm⟩
        have h1 : countMsgEvents [(ck, m)] qa qb = 0 := by
          simp [countMsgEvents, hne]
        have h2 := seenInd_addSeen_le acc.seen (ck, s) (qa, qb)
        dsimp only at h1 ⊢
        omega

theorem msgStep_seen_mono (ck : String) (acc : MsgsAcc) (m : Msg)
    {q : String × String} (h : q ∈ acc.seen) : q ∈ (msgStep ck acc m).seen := by
  unfold msgStep
  rcases extractMessageId m with _ | s
  · exact h
  · dsimp only
    by_cases hmem : (ck, s) ∈ acc.seen
    · rw [decide_eq_false (not_not_intro hmem)]
      exact h
    · rw [decide_eq_true hmem]
      exact mem_addSeen_of_mem h

theorem msgsChildProc_le (ck : String) (msgs : List Msg) :
    ∀ (acc : MsgsAcc) (q : String × String),
    countMsgEvents (msgsChildProc ck acc msgs).events q.1 q.2 + seenInd acc.seen q ≤
      countMsgEvents acc.events q.1 q.2 + seenInd (msgsChildProc ck acc msgs).seen q := by
  induction msgs with
  | nil => intro acc q; exact Nat.le_refl _
  | cons m rest ih =>
    intro acc q
    have hstep := msgStep_le ck acc m q
    have htail := ih (msgStep ck acc m) q
    simp only [msgsChildProc]
    omega

theorem msgsChildProc_seen_mono (ck : String) (msgs : List Msg) :
    ∀ (acc : MsgsAcc) {q : String × String},
    q ∈ acc.seen → q ∈ (msgsChildProc ck acc msgs).seen := by
  induction msgs with
  | nil => intro acc q h; exact h
  | cons m rest ih =>
    intro acc q h
    exact ih _ (msgStep_seen_mono ck acc m h)

theorem messagesCycle_le (seen : Seen) (fetched : List (String × List Msg))
    (q : String × String) :
    countMsgEvents (messagesUpdateCycle seen fetched).events q.1 q.2 + seenInd seen q ≤
      seenInd (messagesUpdateCycle seen fetched).seen q := by
  suffices h : ∀ (acc : MsgsCycleOut),
      countMsgEvents
          (fetched.foldl
            (fun acc p =>
              let o := msgsChildProc p.1 ⟨acc.seen, [], acc.events⟩ p.2
              ⟨o.seen, acc.byChild ++ [(p.1, o.annotated)], o.events⟩) acc).events
          q.1 q.2
        + seenInd acc.seen q ≤
      countMsgEvents acc.events q.1 q.2
        + seenInd
          (fetched.foldl
            (fun acc p =>
              let o := msgsChildProc p.1 ⟨acc.seen, [], acc.events⟩ p.2
              ⟨o.seen, acc.byChild ++ [(p.1, o.annotated)], o.events⟩) acc).seen q by
    have h0 := h ⟨seen, [], []⟩
    simpa [messagesUpdateCycle, countMsgEvents] using h0
  induction fetched with
  | nil => intro acc; exact Nat.le_refl _
  | cons hd tl ih =>
    intro acc
    have hstep := msgsChildProc_le hd.1 hd.2 ⟨acc.seen, [], acc.events⟩ q
    have htail := ih ⟨(msgsChildProc hd.1 ⟨acc.seen, [], acc.events⟩ hd.2).seen,
      acc.byChild ++ [(hd.1, (msgsChildProc hd.1 ⟨acc.seen, [], acc.events⟩ hd.2).annotated)],
      (msgsChildProc hd.1 ⟨acc.seen, [], acc.events⟩ hd.2).events⟩
    simp only [List.foldl_cons]
    dsimp only at hstep htail ⊢
    omega

theorem messagesCycle_seen_mono (seen : Seen) (fetched : List (String × List Msg))
    {q : String × String} (h : q ∈ seen) :
    q ∈ (messagesUpdateCycle seen fetched).seen := by
  suffices hs : ∀ (acc : MsgsCycleOut), q ∈ acc.seen →
      q ∈ (fetched.foldl
        (fun acc p =>
          let o := msgsChildProc p.1 ⟨acc.seen, [], acc.events⟩ p.2
          ⟨o.seen, acc.byChild ++ [(p.1, o.annotated)], o.events⟩) acc).seen by
    exact hs ⟨seen, [], []⟩ h
  induction fetched with
  | nil => intro acc hacc; exact hacc
  | cons hd tl ih =>
    intro acc hacc
    simp only [List.foldl_cons]
    exact ih _ (msgsChildProc_seen_mono hd.1 hd.2 ⟨acc.seen, [], acc.events⟩ hacc)

theorem messagesRun_le (fetches : List (List (String × List Msg))) :
    ∀ (s : Seen) (q : String × String),
    countMsgEvents (messagesRun s fetches).2 q.1 q.2 + seenInd s q ≤
      seenInd (messagesRun s fetches).1 q := by
  induction fetches with
  | nil => intro s q; simp [messagesRun, countMsgEvents]
  | cons f fs ih =>
    intro s q
    have h1 := messagesCycle_le s f q
    have h2 := ih (messagesUpdateCycle s f).seen q
    simp only [messagesRun, countMsgEvents_append]
    omega

theorem messagesRun_seen_mono (fetches : List (List (String × List Msg))) :
    ∀ (s : Seen) {q : String × String}, q ∈ s → q ∈ (messagesRun s fetches).1 := by
  induction fetches with
  | nil => intro s q h; exact h
  | cons f fs ih =>
    intro s q h
    exact ih _ (messagesCycle_seen_mono s f h)

/-- C1: for every child key `ck` and record id `id`, across any sequence of
refresh cycles of one coordinator instance (marks and messages alike), a
"new record" event for `(ck, id)` is emitted at most once; if the pair is
already in the seen-set no event ever fires for it again, and the seen-set
only grows.  The bound `count + indicator ≤ 1` expresses exactly this. -/
theorem c1_new_record_event_at_most_once :
    (∀ (seen₀ : Seen) (fetches : List (List (String × List MarkItem))) (ck id : String),
      countMarkEvents (marksRun seen₀ fetches).2 ck id + seenInd seen₀ (ck, id) ≤ 1
        ∧ ((ck, id) ∈ seen₀ → (ck, id) ∈ (marksRun seen₀ fetches).1))
    ∧ (∀ (seen₀ : Seen) (fetches : List (List (String × List Msg))) (ck id : String),
      countMsgEvents (messagesRun seen₀ fetches).2 ck id + seenInd seen₀ (ck, id) ≤ 1
        ∧ ((ck, id) ∈ seen₀ → (ck, id) ∈ (messagesRun seen₀ fetches).1)) := by
  constructor
  · intro seen₀ fetches ck id
    refine ⟨?_, fun h => marksRun_seen_mono fetches seen₀ h⟩
    have h1 := marksRun_le fetches seen₀ (ck, id)
    have h2 := seenInd_le_one (marksRun seen₀ fetches).1 (ck, id)
    dsimp only at h1
    omega
  · intro seen₀ fetches ck id
    refine ⟨?_, fun h => messagesRun_seen_mono fetches seen₀ h⟩
    have h1 := messagesRun_le fetches seen₀ (ck, id)
    have h2 := seenInd_le_one (messagesRun seen₀ fetches).1 (ck, id)
    dsimp only at h1
    omega

/-- Witness for C1 at a concrete input: a pair already in the seen-set never
fires and survives an empty run. -/
theorem c1_new_record_event_at_most_once_witness :
    countMarkEvents (marksRun [("c", "r")] []).2 "c" "r"
        + seenInd [("c", "r")] ("c", "r") ≤ 1
      ∧ (("c", "r") ∈ (marksRun [("c", "r")] []).1) :=
  ⟨(c1_new_record_event_at_most_once.1 [("c", "r")] [] "c" "r").1,
    (c1_new_record_event_at_most_once.1 [("c", "r")] [] "c" "r").2
      (by simp)⟩

/-! ## Public coordinator API (`async_mark_seen`, `select_marks`) -/

/-- Python dict lookup modelled on an association list built by
append-assignments: the *last* binding for a key wins, matching dict
overwrite semantics. -/
def dlookup {β : Type} (l : List (String × β)) (k : String) : Option β :=
  l.foldl (fun acc p => if p.1 = k then some p.2 else acc) none

/-- Python dict assignment `d[k] = v` (append form; `dlookup` is last-wins,
so the new binding shadows any earlier one). -/
def dinsert {β : Type} (l : List (String × β)) (k : String) (v : β) :
    List (String × β) :=
  l ++ [(k, v)]

/-- State of `BakalariMarksCoordinator` relevant to its public API: the
ordered child list (composite keys), the seen-set, and the published
`marks_by_child` part of the last snapshot. -/
structure MarksCoord where
  childList : List String
  seen : Seen
  marksByChild : List (String × List (MarkItem × Bool))
  deriving DecidableEq

/-- Model of `self.child_list[0].key if self.child_list else ""`. -/
def firstChildKey (c : MarksCoord) : String :=
  match c.childList with
  | [] => ""
  | k :: _ => k

/-- Model of `child_key or (self.child_list[0].key if self.child_list else "")`
(a present empty string is falsy and falls back too). -/
def resolveChildKey (c : MarksCoord) (ck : Option String) : String :=
  match ck with
  | none => firstChildKey c
  | some s => if s = "" then firstChildKey c else s

/-- `BakalariMarksCoordinator.async_mark_seen`: resolve the child key, then
add `(ck, mark_id)` to the seen-set when both are non-empty. -/
def asyncMarkSeen (c : MarksCoord) (markIdArg : String) (childKey : Option String) :
    MarksCoord :=
  let ck := resolveChildKey c childKey
  if ck ≠ "" ∧ markIdArg ≠ "" then
    { c with seen := addSeen c.seen (ck, markIdArg) }
  else c

/-- `BakalariMarksCoordinator.select_marks`: resolve the child key, look the
child up in `marks_by_child` (default `[]`), and slice `[: max(0, limit or 0)]`.
(`limit or 0` agrees with `Option.getD 0` because a present `0` is falsy and
maps to `0` as well.) -/
def selectMarks (c : MarksCoord) (childKey : Option String) (limit : Option Int) :
    List (MarkItem × Bool) :=
  let ck := resolveChildKey c childKey
  let items := (dlookup c.marksByChild ck).getD []
  items.take (max 0 (limit.getD 0)).toNat

theorem asyncMarkSeen_eq (c : MarksCoord) (mid : String) (ckArg : Option String) :
    asyncMarkSeen c mid ckArg =
      if resolveChildKey c ckArg ≠ "" ∧ mid ≠ "" then
        { c with seen := addSeen c.seen (resolveChildKey c ckArg, mid) }
      else c := rfl

theorem resolveChildKey_update_seen (c : MarksCoord) (s : Seen) (ckArg : Option String) :
    resolveChildKey { c with seen := s } ckArg = resolveChildKey c ckArg := by
  cases ckArg <;> rfl

/-- C7: `mark_seen` is idempotent, and once `(ck, id)` has been marked seen,
every subsequent poll cycle — after any number of intervening cycles, since
the seen-set never removes entries — annotates a fetched record with that id
for that child with `is_new = false`. -/
theorem c7_mark_seen_idempotent_and_suppresses (c : MarksCoord) (mid : String)
    (ckArg : Option String) :
    asyncMarkSeen (asyncMarkSeen c mid ckArg) mid ckArg = asyncMarkSeen c mid ckArg
    ∧ ∀ (fetchSeq : List (List (String × List MarkItem)))
        (fetched : List (String × List MarkItem))
        (p : String × List (MarkItem × Bool)) (q : MarkItem × Bool),
        mid ≠ "" → resolveChildKey c ckArg ≠ "" →
        p ∈ (marksUpdateCycle
              (marksRun (asyncMarkSeen c mid ckArg).seen fetchSeq).1 fetched).annotated →
        p.1 = resolveChildKey c ckArg →
        q ∈ p.2 → markId q.1 = mid → q.2 = false := by
  constructor
  · rw [asyncMarkSeen_eq c mid ckArg]
    split
    · next h =>
      rw [asyncMarkSeen_eq]
      rw [resolveChildKey_update_seen]
      rw [if_pos h]
      simp only [addSeen_idem]
    · next h =>
      rw [asyncMarkSeen_eq, if_neg h]
  · intro fetchSeq fetched p q hmid hck hp hp1 hq hqid
    -- the marked pair is in the seen-set right after async_mark_seen ...
    have hmem0 : (resolveChildKey c ckArg, mid) ∈ (asyncMarkSeen c mid ckArg).seen := by
      rw [asyncMarkSeen_eq, if_pos ⟨hck, hmid⟩]
      exact self_mem_addSeen _ _
    -- ... and stays there across any sequence of cycles
    have hmem : (resolveChildKey c ckArg, mid) ∈
        (marksRun (asyncMarkSeen c mid ckArg).seen fetchSeq).1 :=
      marksRun_seen_mono fetchSeq _ hmem0
    -- unpack membership in the published annotation of the next cycle
    simp only [marksUpdateCycle, List.mem_map] at hp
    obtain ⟨a, _, rfl⟩ := hp
    dsimp only at hp1 hq
    simp only [annotateItems, List.mem_map] at hq
    obtain ⟨it, _, rfl⟩ := hq
    dsimp only at hqid ⊢
    rw [hqid, hp1]
    simp only [decide_eq_false_iff_not, not_and, not_not]
    intro _
    exact hmem

/-- Witness for C7: a concrete coordinator, mark id and child key. -/
theorem c7_mark_seen_idempotent_and_suppresses_witness :
    (asyncMarkSeen (asyncMarkSeen ⟨["k"], [], []⟩ "m1" none) "m1" none
        = asyncMarkSeen ⟨["k"], [], []⟩ "m1" none)
    ∧ ((⟨⟨some "m1", "x"⟩, false⟩ : MarkItem × Bool).2 = false) :=
  ⟨(c7_mark_seen_idempotent_and_suppresses ⟨["k"], [], []⟩ "m1" none).1,
    (c7_mark_seen_idempotent_and_suppresses ⟨["k"], [], []⟩ "m1" none).2
      [] [("k", [⟨some "m1", "x"⟩])]
      ("k", [(⟨some "m1", "x"⟩, false)]) (⟨some "m1", "x"⟩, false)
      (by decide) (by decide) (by decide) (by decide) (by decide) (by decide)⟩

/-- C10 (implicit): `select_marks` / `async_mark_seen` with `child_key = None`
target the first configured child (a no-op / empty result when none is
configured), and `select_marks` with a `None` or non-positive limit returns
the empty list. -/
theorem c10_none_child_key_and_nonpositive_limit (c : MarksCoord)
    (limit : Option Int) (mid : String) (ckArg : Option String) :
    (selectMarks c none limit = selectMarks c (some (firstChildKey c)) limit)
    ∧ (asyncMarkSeen c mid none = asyncMarkSeen c mid (some (firstChildKey c)))
    ∧ (c.childList = [] → asyncMarkSeen c mid none = c)
    ∧ (c.childList = [] → dlookup c.marksByChild "" = none →
        selectMarks c none limit = [])
    ∧ (selectMarks c ckArg none = [])
    ∧ (∀ v : Int, v ≤ 0 → selectMarks c ckArg (some v) = []) := by
  have hres : resolveChildKey c (some (firstChildKey c)) = firstChildKey c := by
    by_cases h : firstChildKey c = "" <;> simp [resolveChildKey, h]
  have hresn : resolveChildKey c none = firstChildKey c := rfl
  refine ⟨?_, ?_, ?_, ?_, ?_, ?_⟩
  · simp only [selectMarks, hres, hresn]
  · simp only [asyncMarkSeen_eq, hres, hresn]
  · intro h
    have h0 : firstChildKey c = "" := by simp [firstChildKey, h]
    rw [asyncMarkSeen_eq, hresn, h0]
    simp
  · intro h hlk
    have h0 : firstChildKey c = "" := by simp [firstChildKey, h]
    simp only [selectMarks, hresn, h0, hlk]
    simp
  · simp [selectMarks]
  · intro v hv
    have h0 : max (0 : Int) v = 0 := max_eq_left hv
    simp [selectMarks, h0]

/-- Witness for C10 at a concrete coordinator with no children. -/
theorem c10_none_child_key_and_nonpositive_limit_witness :
    (asyncMarkSeen ⟨[], [], []⟩ "m" none = (⟨[], [], []⟩ : MarksCoord))
    ∧ (selectMarks ⟨[], [], []⟩ none (some 5) = [])
    ∧ (selectMarks ⟨[], [], []⟩ (some "k") (some (-3)) = []) :=
  ⟨(c10_none_child_key_and_nonpositive_limit ⟨[], [], []⟩ (some 5) "m" (some "k")).2.2.1
      rfl,
    (c10_none_child_key_and_nonpositive_limit ⟨[], [], []⟩ (some 5) "m" (some "k")).2.2.2.1
      rfl rfl,
    (c10_none_child_key_and_nonpositive_limit ⟨[], [], []⟩ (some 5) "m" (some "k")).2.2.2.2.2
      (-3) (by decide)⟩

/-! ## Semantics of the `is_new` flag (marks vs messages) -/

/-- The flag the messages loop attaches to one record given the *current*
seen-set. -/
def annotFlag (seen : Seen) (ck : String) (m : Msg) : Bool :=
  match extractMessageId m with
  | none => false
  | some s => decide ((ck, s) ∉ seen)

/-- Seen-set after the messages loop has processed one record: the extracted
id is present afterwards whether or not it was new (when it was not new it
was already a member, and `addSeen` is then a no-op). -/
def seenBump (seen : Seen) (ck : String) (m : Msg) : Seen :=
  match extractMessageId m with
  | none => seen
  | some s => addSeen seen (ck, s)

/-- The sequence of flags the messages loop produces, against the *evolving*
seen-set. -/
def msgFlags (seen : Seen) (ck : String) : List Msg → List Bool
  | [] => []
  | m :: rest => annotFlag seen ck m :: msgFlags (seenBump seen ck m) ck rest

theorem msgStep_eq (ck : String) (acc : MsgsAcc) (m : Msg) :
    msgStep ck acc m =
      ⟨seenBump acc.seen ck m,
        acc.annotated ++ [(m, annotFlag acc.seen ck m)],
        acc.events ++ (if annotFlag acc.seen ck m then [(ck, m)] else [])⟩ := by
  unfold msgStep annotFlag seenBump
  rcases h : extractMessageId m with _ | s
  · simp
  · dsimp only
    by_cases hmem : (ck, s) ∈ acc.seen
    · rw [decide_eq_false (not_not_intro hmem)]
      dsimp only
      have haddm : addSeen acc.seen (ck, s) = acc.seen := by
        unfold addSeen; rw [if_pos hmem]
      rw [haddm]
      simp
    · rw [decide_eq_true hmem]
      simp

theorem msgFlags_length (ck : String) :
    ∀ (msgs : List Msg) (seen : Seen), (msgFlags seen ck msgs).length = msgs.length := by
  intro msgs
  induction msgs with
  | nil => intro seen; rfl
  | cons m rest ih => intro seen; simp [msgFlags, ih]

theorem msgsChildProc_annotated (ck : String) :
    ∀ (msgs : List Msg) (acc : MsgsAcc),
    (msgsChildProc ck acc msgs).annotated =
      acc.annotated ++ msgs.zip (msgFlags acc.seen ck msgs) := by
  intro msgs
  induction msgs with
  | nil => intro acc; simp [msgsChildProc]
  | cons m rest ih =>
    intro acc
    rw [show msgsChildProc ck acc (m :: rest) = msgsChildProc ck (msgStep ck acc m) rest
      from rfl]
    rw [ih (msgStep ck acc m), msgStep_eq]
    simp [msgFlags, List.zip_cons_cons]

theorem mem_seenBump {seen : Seen} {ck s : String} {m : Msg} :
    (ck, s) ∈ seenBump seen ck m ↔
      extractMessageId m = some s ∨ (ck, s) ∈ seen := by
  unfold seenBump
  rcases h : extractMessageId m with _ | t
  · simp
  · rw [mem_addSeen]
    constructor
    · rintro (he | hm)
      · left
        rw [Prod.mk.injEq] at he
        rw [he.2]
      · exact Or.inr hm
    · rintro (he | hm)
      · left
        injection he with he2
        rw [he2]
      · exact Or.inr hm

theorem annotFlag_of_none {seen : Seen} {ck : String} {m : Msg}
    (h : extractMessageId m = none) : annotFlag seen ck m = false := by
  unfold annotFlag; rw [h]

theorem annotFlag_of_some {seen : Seen} {ck t : String} {m : Msg}
    (h : extractMessageId m = some t) :
    annotFlag seen ck m = decide ((ck, t) ∉ seen) := by
  unfold annotFlag; rw [h]

theorem msgFlags_get_true_iff (ck : String) :
    ∀ (msgs : List Msg) (seen : Seen) (j : Nat) (hj : j < msgs.length)
      (hj' : j < (msgFlags seen ck msgs).length),
    (msgFlags seen ck msgs).get ⟨j, hj'⟩ = true ↔
      ∃ s, extractMessageId (msgs.get ⟨j, hj⟩) = some s ∧ (ck, s) ∉ seen
        ∧ ∀ i (hi : i < j), extractMessageId (msgs.get ⟨i, hi.trans hj⟩) ≠ some s := by
  intro msgs
  induction msgs with
  | nil => intro seen j hj; exact absurd hj (Nat.not_lt_zero j)
  | cons m rest ih =>
    intro seen j hj hj'
    match j with
    | 0 =>
      have h0 : (msgFlags seen ck (m :: rest)).get ⟨0, hj'⟩ = annotFlag seen ck m := rfl
      have h1 : (m :: rest).get ⟨0, hj⟩ = m := rfl
      rw [h0, h1]
      rcases h : extractMessageId m with _ | t
      · rw [annotFlag_of_none h]
        constructor
        · intro hfalse; exact absurd hfalse (by simp)
        · rintro ⟨s, hs, _⟩
          exact absurd hs (by simp)
      · rw [annotFlag_of_some h, decide_eq_true_eq]
        constructor
        · intro hmem
          exact ⟨t, rfl, hmem, fun i hi => absurd hi (Nat.not_lt_zero i)⟩
        · rintro ⟨s, hs, hmem, _⟩
          injection hs with hs2
          rw [hs2]
          exact hmem
    | Nat.succ k =>
      have hk : k < rest.length := Nat.lt_of_succ_lt_succ hj
      have hk' : k < (msgFlags (seenBump seen ck m) ck rest).length := by
        rw [msgFlags_length]; exact hk
      have hstep : (msgFlags seen ck (m :: rest)).get ⟨k + 1, hj'⟩ =
          (msgFlags (seenBump seen ck m) ck rest).get ⟨k, hk'⟩ := rfl
      rw [hstep, ih (seenBump seen ck m) k hk hk']
      constructor
      · rintro ⟨s, hs, hmem, hprev⟩
        rw [mem_seenBump] at hmem
        push_neg at hmem
        refine ⟨s, hs, hmem.2, ?_⟩
        intro i hi
        match i with
        | 0 => exact hmem.1
        | Nat.succ i' =>
          have hi' : i' < k := Nat.lt_of_succ_lt_succ hi
          exact hprev i' hi'
      · rintro ⟨s, hs, hmem, hprev⟩
        refine ⟨s, hs, ?_, ?_⟩
        · rw [mem_seenBump]
          push_neg
          exact ⟨hprev 0 (Nat.succ_pos k), hmem⟩
        · intro i hi
          exact hprev (i + 1) (Nat.succ_lt_succ hi)

theorem zip_get_snd {α β : Type} :
    ∀ (a : List α) (b : List β) (j : Nat) (hab : j < (a.zip b).length)
      (hb : j < b.length),
    ((a.zip b).get ⟨j, hab⟩).2 = b.get ⟨j, hb⟩ := by
  intro a
  induction a with
  | nil => intro b j hab; exact absurd hab (by simp)
  | cons x xs ih =>
    intro b j hab hb
    match b with
    | [] => exact absurd hb (Nat.not_lt_zero j)
    | y :: ys =>
      match j with
      | 0 => rfl
      | Nat.succ k =>
        have hab' : k < (xs.zip ys).length := by
          simpa using Nat.lt_of_succ_lt_succ hab
        have hb' : k < ys.length := Nat.lt_of_succ_lt_succ hb
        exact ih ys k hab' hb'

/-- C5 (corrected): in every marks refresh cycle, the published `is_new` flag
equals "id non-empty and `(ck, id)` not in the seen-set *at the start of the
cycle*", independent of the seen-set mutations performed by the event pass of
the same cycle.  In the messages coordinator, however, `is_new` is computed
against the *evolving* seen-set: the record at position `j` carries `true`
exactly when its id extracts, was unseen at cycle start, *and* no earlier
record of the same cycle shares that id — so two records with the same id in
one messages cycle do not both carry the same value. -/
theorem c5_is_new_semantics :
    (∀ (seen : Seen) (fetched : List (String × List MarkItem))
        (p : String × List (MarkItem × Bool)) (q : MarkItem × Bool),
      p ∈ (marksUpdateCycle seen fetched).annotated → q ∈ p.2 →
      q.2 = decide (markId q.1 ≠ "" ∧ (p.1, markId q.1) ∉ seen))
    ∧ (∀ (seen : Seen) (ck : String) (msgs : List Msg) (j : Nat)
        (hj : j < msgs.length)
        (hj' : j < (msgsChildProc ck ⟨seen, [], []⟩ msgs).annotated.length),
      ((msgsChildProc ck ⟨seen, [], []⟩ msgs).annotated.get ⟨j, hj'⟩).2 = true ↔
        ∃ s, extractMessageId (msgs.get ⟨j, hj⟩) = some s ∧ (ck, s) ∉ seen
          ∧ ∀ i (hi : i < j),
              extractMessageId (msgs.get ⟨i, hi.trans hj⟩) ≠ some s) := by
  constructor
  · intro seen fetched p q hp hq
    simp only [marksUpdateCycle, List.mem_map] at hp
    obtain ⟨a, _, rfl⟩ := hp
    dsimp only at hq ⊢
    simp only [annotateItems, List.mem_map] at hq
    obtain ⟨it, _, rfl⟩ := hq
    rfl
  · intro seen ck msgs j hj hj'
    have hann : (msgsChildProc ck ⟨seen, [], []⟩ msgs).annotated
        = msgs.zip (msgFlags seen ck msgs) := by
      rw [msgsChildProc_annotated]
      rfl
    have hflen : j < (msgFlags seen ck msgs).length := by
      rw [msgFlags_length]; exact hj
    have hzlen : j < (msgs.zip (msgFlags seen ck msgs)).length := by
      rw [← hann]; exact hj'
    have hget : (msgsChildProc ck ⟨seen, [], []⟩ msgs).annotated.get ⟨j, hj'⟩
        = (msgs.zip (msgFlags seen ck msgs)).get ⟨j, hzlen⟩ := by
      apply List.get_of_eq hann
    rw [hget, zip_get_snd msgs (msgFlags seen ck msgs) j hzlen hflen]
    exact msgFlags_get_true_iff ck msgs seen j hj hflen

/-- Counterexample to C5 as stated: in one messages cycle, two records with
the same extracted id do *not* carry the same `is_new` — the first gets
`true`, the second `false`, because the seen-set is mutated mid-cycle. -/
theorem c5_counterexample :
    extractMessageId ⟨some "m1", none, none, none, none, none, none, none,
        none, none, "a"⟩ = some "m1"
    ∧ extractMessageId ⟨some "m1", none, none, none, none, none, none, none,
        none, none, "b"⟩ = some "m1"
    ∧ (messagesUpdateCycle []
          [("c", [⟨some "m1", none, none, none, none, none, none, none, none,
            none, "a"⟩,
            ⟨some "m1", none, none, none, none, none, none, none, none,
            none, "b"⟩])]).byChild.map (fun p => (p.1, p.2.map Prod.snd))
        = [("c", [true, false])] := by
  refine ⟨by decide, by decide, by decide⟩

/-- Witness for C5 on concrete inputs for both coordinators. -/
theorem c5_is_new_semantics_witness :
    ((⟨⟨some "a", ""⟩, true⟩ : MarkItem × Bool).2
        = decide (markId (⟨some "a", ""⟩ : MarkItem) ≠ ""
            ∧ ("c", markId (⟨some "a", ""⟩ : MarkItem)) ∉ ([] : Seen)))
    ∧ (((msgsChildProc "c" ⟨[], [], []⟩
          [⟨some "w1", none, none, none, none, none, none, none, none, none,
            "w"⟩]).annotated.get ⟨0, by decide⟩).2 = true ↔
        ∃ s, extractMessageId
            (([⟨some "w1", none, none, none, none, none, none, none, none,
              none, "w"⟩] : List Msg).get ⟨0, by decide⟩) = some s
          ∧ ("c", s) ∉ ([] : Seen)
          ∧ ∀ i (hi : i < 0), extractMessageId
              (([⟨some "w1", none, none, none, none, none, none, none, none,
                none, "w"⟩] : List Msg).get ⟨i, hi.trans (by decide)⟩)
              ≠ some s) :=
  ⟨c5_is_new_semantics.1 [] [("c", [⟨some "a", ""⟩])]
      ("c", [(⟨some "a", ""⟩, true)]) (⟨some "a", ""⟩, true)
      (by decide) (by decide),
    c5_is_new_semantics.2 [] "c"
      [⟨some "w1", none, none, none, none, none, none, none, none, none, "w"⟩]
      0 (by decide) (by decide)⟩

/-! ## Children index (`children.py`) -/

/-- Python `a or b` for strings (empty string is falsy). -/
def pyOrStr (a b : String) : String := if a = "" then b else a

/-- Python `a or b` where `a` is an optional string (absent / `None` / empty
all fall back to `b`). -/
def pyOrStrOpt (a : Option String) (b : String) : String :=
  match a with
  | none => b
  | some s => if s = "" then b else s

/-- Python `str(x)` on an optional value: `None` renders as the string
`"None"`. -/
def pyStr (a : Option String) : String :=
  match a with
  | none => "None"
  | some s => s

/-- Keep a value only when truthy, as in `if at: tmp[...] = at`. -/
def truthyOpt (a : Option String) : Option String :=
  match a with
  | none => none
  | some s => if s = "" then none else some s

/-- `utils.make_child_key`. -/
def makeChildKey (server userId : String) : String := server ++ "|" ++ userId

/-- Raw persisted child record (`ChildRecord` of `const.py`) as read by
`ChildrenIndex.from_entry`. -/
structure RawChild where
  server : Option String
  user_id : Option String
  username : Option String
  name : Option String
  surname : Option String
  school : Option String
  access_token : Option String
  refresh_token : Option String
  deriving DecidableEq

/-- The `Child` dataclass of `children.py`. -/
structure ChildM where
  key : String
  user_id : String
  server : String
  display_name : String
  short_name : String
  deriving DecidableEq

/-- The `tmp` record stored into `_by_key` (note `str(cr.get(CONF_SCHOOL))`
renders a missing school as `"None"`). -/
structure StoredChild where
  user_id : String
  username : String
  name : String
  surname : String
  school : String
  server : String
  access_token : Option String
  refresh_token : Option String
  deriving DecidableEq

/-- `(cr.get(CONF_SERVER) or "").strip()`. -/
def rawServer (cr : RawChild) : String := pyStrip (cr.server.getD "")

/-- `(cr.get(CONF_USER_ID) or str(opt_key)).strip()`. -/
def rawUserId (optKey : String) (cr : RawChild) : String :=
  pyStrip (pyOrStrOpt cr.user_id optKey)

/-- Composite key of a raw slot, or `none` when the record is skipped for a
missing server / user id. -/
def rawChildKey (optKey : String) (cr : RawChild) : Option String :=
  let server := rawServer cr
  let userId := rawUserId optKey cr
  if server = "" ∨ userId = "" then none
  else some (makeChildKey server userId)

/-- The display string built in `from_entry`
(`f"... ({school})".strip()` with `dict.get(k, '')` defaults). -/
def rawDisplay (cr : RawChild) : String :=
  pyStrip ((cr.name.getD "") ++ " " ++ (cr.surname.getD "") ++ " ("
    ++ (cr.school.getD "") ++ ")")

/-- `str(cr.get("name") or "").strip() or user_id`. -/
def rawShortName (userId : String) (cr : RawChild) : String :=
  pyOrStr (pyStrip (cr.name.getD "")) userId

/-- The `tmp` dict built for `_by_key`. -/
def rawStored (optKey : String) (cr : RawChild) : StoredChild :=
  ⟨rawUserId optKey cr, pyOrStrOpt cr.username "", pyOrStrOpt cr.name "",
    pyOrStrOpt cr.surname "", pyStr cr.school, rawServer cr,
    truthyOpt cr.access_token, truthyOpt cr.refresh_token⟩

/-- Loop of `ChildrenIndex.from_entry` over the raw children map (slots in
iteration order), producing `_by_key`, `_optkey_by_childkey` and `_list`.
The head slot is processed first, so its bindings sit earlier in the lists;
`dlookup` is last-wins, giving dict overwrite semantics. -/
def fromEntryAcc : List (String × RawChild) →
    List (String × StoredChild) × List (String × String) × List ChildM
  | [] => ([], [], [])
  | p :: rest =>
    let r := fromEntryAcc rest
    match rawChildKey p.1 p.2 with
    | none => r
    | some ck =>
      ((ck, rawStored p.1 p.2) :: r.1,
        (ck, p.1) :: r.2.1,
        (⟨ck, rawUserId p.1 p.2, rawServer p.2, rawDisplay p.2,
          rawShortName (rawUserId p.1 p.2) p.2⟩ : ChildM) :: r.2.2)

/-- Result of `ChildrenIndex.from_entry`. -/
structure ChildrenIndexM where
  byKey : List (String × StoredChild)
  optMap : List (String × String)
  list : List ChildM
  deriving DecidableEq

/-- `ChildrenIndex.from_entry`. -/
def fromEntry (raw : List (String × RawChild)) : ChildrenIndexM :=
  let r := fromEntryAcc raw
  ⟨r.1, r.2.1, r.2.2⟩

/-- Number of entries of the children list carrying a given composite key. -/
def countChildrenWithKey (l : List ChildM) (ck : String) : Nat :=
  (l.filter fun ch => decide (ch.key = ck)).length

/-- The storage slots of a raw map that produce a given composite key, in
iteration order. -/
def slotsForKey (raw : List (String × RawChild)) (ck : String) : List String :=
  raw.filterMap fun p => if rawChildKey p.1 p.2 = some ck then some p.1 else none

theorem dlookup_foldl_acc {β : Type} (k : String) :
    ∀ (l : List (String × β)) (acc : Option β),
    l.foldl (fun acc p => if p.1 = k then some p.2 else acc) acc
      = match dlookup l k with
        | some v => some v
        | none => acc := by
  intro l
  induction l with
  | nil => intro acc; rfl
  | cons x xs ih =>
    intro acc
    have hL : (x :: xs).foldl (fun acc p => if p.1 = k then some p.2 else acc) acc
        = xs.foldl (fun acc p => if p.1 = k then some p.2 else acc)
          (if x.1 = k then some x.2 else acc) := rfl
    have hD : dlookup (x :: xs) k
        = xs.foldl (fun acc p => if p.1 = k then some p.2 else acc)
          (if x.1 = k then some x.2 else none) := rfl
    rw [hL, ih, hD, ih]
    rcases dlookup xs k with _ | v
    · by_cases hx : x.1 = k <;> simp [hx]
    · rfl

theorem dlookup_cons {β : Type} (x : String × β) (l : List (String × β))
    (k : String) :
    dlookup (x :: l) k
      = match dlookup l k with
        | some v => some v
        | none => if x.1 = k then some x.2 else none := by
  have h : dlookup (x :: l) k
      = l.foldl (fun acc p => if p.1 = k then some p.2 else acc)
        (if x.1 = k then some x.2 else none) := rfl
  rw [h, dlookup_foldl_acc]

theorem fromEntry_optMap (raw : List (String × RawChild)) :
    (fromEntry raw).optMap = (fromEntryAcc raw).2.1 := rfl

theorem fromEntry_list (raw : List (String × RawChild)) :
    (fromEntry raw).list = (fromEntryAcc raw).2.2 := rfl

theorem countChildrenWithKey_cons (ch : ChildM) (l : List ChildM) (ck : String) :
    countChildrenWithKey (ch :: l) ck
      = (if ch.key = ck then 1 else 0) + countChildrenWithKey l ck := by
  unfold countChildrenWithKey
  rw [List.filter_cons]
  by_cases h : ch.key = ck
  · simp [h]
    omega
  · simp [h]

/-- C4 (corrected): `from_entry` does *not* collapse duplicate composite keys
in the children list — it appends one `Child` per valid raw record, so a key
occurs in the list as often as valid records bear it; only the
key-to-storage-slot side table (like `_by_key`) is last-wins, mapping the key
to the latest slot in iteration order. -/
theorem c4_children_index_duplicates :
    ∀ (raw : List (String × RawChild)) (ck : String),
    countChildrenWithKey (fromEntry raw).list ck = (slotsForKey raw ck).length
    ∧ dlookup (fromEntry raw).optMap ck = (slotsForKey raw ck).getLast? := by
  intro raw ck
  rw [fromEntry_list, fromEntry_optMap]
  induction raw with
  | nil => exact ⟨rfl, rfl⟩
  | cons p rest ih =>
    obtain ⟨ihc, ihl⟩ := ih
    rcases hk : rawChildKey p.1 p.2 with _ | ck'
    · have hfe : fromEntryAcc (p :: rest) = fromEntryAcc rest := by
        simp [fromEntryAcc, hk]
      have hsl : slotsForKey (p :: rest) ck = slotsForKey rest ck := by
        simp [slotsForKey, List.filterMap_cons, hk]
      rw [hfe, hsl]
      exact ⟨ihc, ihl⟩
    · have hfe : fromEntryAcc (p :: rest)
          = ((ck', rawStored p.1 p.2) :: (fromEntryAcc rest).1,
             (ck', p.1) :: (fromEntryAcc rest).2.1,
             (⟨ck', rawUserId p.1 p.2, rawServer p.2, rawDisplay p.2,
               rawShortName (rawUserId p.1 p.2) p.2⟩ : ChildM)
               :: (fromEntryAcc rest).2.2) := by
        simp [fromEntryAcc, hk]
      by_cases hck : ck' = ck
      · subst hck
        have hsl : slotsForKey (p :: rest) ck' = p.1 :: slotsForKey rest ck' := by
          simp [slotsForKey, List.filterMap_cons, hk]
        rw [hfe, hsl]
        constructor
        · rw [countChildrenWithKey_cons, ihc, List.length_cons]
          dsimp only
          rw [if_pos rfl]
          omega
        · rw [dlookup_cons]
          rcases hrest : dlookup (fromEntryAcc rest).2.1 ck' with _ | v
          · rw [hrest] at ihl
            have hnil : slotsForKey rest ck' = [] :=
              List.getLast?_eq_none_iff.mp ihl.symm
            rw [hnil]
            simp
          · rw [hrest] at ihl
            rcases hsr : slotsForKey rest ck' with _ | ⟨y, t⟩
            · rw [hsr] at ihl
              simp at ihl
            · rw [hsr] at ihl
              rw [List.getLast?_cons_cons]
              exact ihl
      · have hsl : slotsForKey (p :: rest) ck = slotsForKey rest ck := by
          simp only [slotsForKey, List.filterMap_cons, hk]
          rw [if_neg (by simp [hck])]
        rw [hfe, hsl]
        constructor
        · rw [countChildrenWithKey_cons, ihc]
          simp only [if_neg hck]
          omega
        · rw [dlookup_cons]
          rcases hrest : dlookup (fromEntryAcc rest).2.1 ck with _ | v
          · rw [hrest] at ihl
            rw [if_neg hck]
            exact ihl
          · rw [hrest] at ihl
            exact ihl

/-- Counterexample to C4 as stated: two storage slots sharing trimmed
`(server, user_id)` produce *two* entries in the children list (not exactly
one), while the side table maps the composite key to the later slot. -/
theorem c4_counterexample :
    countChildrenWithKey (fromEntry
        [("a", ⟨some "srv", some "1", none, none, none, none, none, none⟩),
         ("b", ⟨some "srv", some "1", none, none, none, none, none, none⟩)]).list
        "srv|1" ≠ 1
    ∧ dlookup (fromEntry
        [("a", ⟨some "srv", some "1", none, none, none, none, none, none⟩),
         ("b", ⟨some "srv", some "1", none, none, none, none, none, none⟩)]).optMap
        "srv|1" = some "b" := by
  refine ⟨by decide, by decide⟩

/-! ## Mark aggregation (`sensor_helpers.py`; `sensor_marks.py` carries a
byte-identical copy of `_parse_numeric_mark` / `_aggregate_marks_for_child`)

Python floats are modelled as exact rationals. -/

/-- A flat mark record, restricted to the entries the aggregation reads.
A numeric field is `some q` when the dict holds an `int`/`float` there (a
present but non-numeric value fails the `isinstance` probe and is modelled
as `none`). -/
structure MarkRec where
  value : Option ℚ
  numeric_value : Option ℚ
  mark_value : Option ℚ
  weight : Option ℚ
  coef : Option ℚ
  coefficient : Option ℚ
  mark_text : Option String
  points_text : Option String
  subject_id : Option String
  subject : Option String
  subject_abbr : Option String
  subject_name : Option String
  is_new : Bool
  date : Option String
  created : Option String
  inserted : Option String
  deriving DecidableEq

/-- All-absent mark record, for building concrete examples. -/
def emptyMarkRec : MarkRec :=
  ⟨none, none, none, none, none, none, none, none, none, none, none, none,
    false, none, none, none⟩

/-- Python `a or b` on optional numbers (`0` is falsy, `None` is absent). -/
def pyOrNum (a b : Option ℚ) : Option ℚ :=
  match a with
  | none => b
  | some x => if x = 0 then b else some x

/-- Weight lookup `item.get("weight") or item.get("coef") or
item.get("coefficient")` followed by
`float(w_raw) if w_raw is not None and str(w_raw).strip() != "" else 1.0`
(a number never renders blank, so only `None` falls back to `1.0`). -/
def weightOf (it : MarkRec) : ℚ :=
  match pyOrNum it.weight (pyOrNum it.coef it.coefficient) with
  | none => 1
  | some q => q

/-- First of `value`, `numeric_value`, `mark_value` holding a number. -/
def firstNumericField (it : MarkRec) : Option ℚ :=
  match it.value with
  | some v => some v
  | none =>
    match it.numeric_value with
    | some v => some v
    | none => it.mark_value

/-- Value of a run of decimal digits. -/
def digitsToNat (cs : List Char) : Nat :=
  cs.foldl (fun acc c => acc * 10 + (c.toNat - 48)) 0

/-- First match of the regex `(\d+[.,]?\d*)` in a character list, converted
with `float(....replace(",", "."))`: the first run of digits, optionally one
decimal separator and a (possibly empty) fraction run. -/
def scanFirstNumber : List Char → Option ℚ
  | [] => none
  | c :: rest =>
    if c.isDigit then
      let intDigits := (c :: rest).takeWhile Char.isDigit
      let after := (c :: rest).dropWhile Char.isDigit
      match after with
      | sep :: tail =>
        if sep = '.' ∨ sep = ',' then
          let fracDigits := tail.takeWhile Char.isDigit
          some ((digitsToNat intDigits : ℚ)
            + (digitsToNat fracDigits : ℚ) / (10 : ℚ) ^ fracDigits.length)
        else some (digitsToNat intDigits : ℚ)
      | [] => some (digitsToNat intDigits : ℚ)
    else scanFirstNumber rest

/-- The text probed for a number:
`str(item.get("mark_text") or item.get("points_text") or "").strip()`. -/
def markText (it : MarkRec) : String :=
  pyStrip (pyOrStrOpt it.mark_text (pyOrStrOpt it.points_text ""))

/-- `_parse_numeric_mark`: explicit numeric field first (with its weight),
else the first number found in the text fields, else non-numeric with
weight `0.0`. -/
def parseNumericMark (it : MarkRec) : Option ℚ × ℚ :=
  match firstNumericField it with
  | some v => (some v, weightOf it)
  | none =>
    match scanFirstNumber (markText it).toList with
    | none => (none, 0)
    | some q => (some q, weightOf it)

/-- Subject key precedence `subject_id → subject → abbr → name → "unknown"`
as computed in `aggregate_marks_for_child`. -/
def subjKeyOf (it : MarkRec) : String :=
  let sid := pyStrip (pyOrStrOpt it.subject_id (pyOrStrOpt it.subject ""))
  let sabbr := pyStrip (it.subject_abbr.getD "")
  let sname := pyStrip (it.subject_name.getD "")
  pyOrStr sid (pyOrStr sabbr (pyOrStr sname "unknown"))

/-- `s or None` for a string. -/
def strOrNone (s : String) : Option String := if s = "" then none else some s

/-- The per-subject accumulator dict created on first sight of a subject. -/
structure SubAcc where
  subject_id : Option String
  subject_key : String
  subject_abbr : Option String
  subject_name : Option String
  count : Nat
  new_count : Nat
  numeric_count : Nat
  non_numeric_count : Nat
  sum : ℚ
  wsum : ℚ
  weight : ℚ
  last_text : Option String
  last_date : Option String
  deriving DecidableEq

/-- Fresh per-subject accumulator for the subject of `it`. -/
def initSubAcc (it : MarkRec) : SubAcc :=
  let sid := pyStrip (pyOrStrOpt it.subject_id (pyOrStrOpt it.subject ""))
  let sabbr := pyStrip (it.subject_abbr.getD "")
  let sname := pyStrip (it.subject_name.getD "")
  ⟨strOrNone sid, subjKeyOf it, strOrNone sabbr, strOrNone sname,
    0, 0, 0, 0, 0, 0, 0, none, none⟩

/-- `it.get("date") or it.get("created") or it.get("inserted") or None`. -/
def lastDateOf (it : MarkRec) : Option String :=
  strOrNone (pyOrStrOpt it.date (pyOrStrOpt it.created (pyOrStrOpt it.inserted "")))

/-- The per-subject mutations performed for one record inside the main loop
of `aggregate_marks_for_child`. -/
def updSubAcc (it : MarkRec) (agg : SubAcc) : SubAcc :=
  let agg := { agg with
    count := agg.count + 1,
    new_count := if it.is_new then agg.new_count + 1 else agg.new_count }
  let vw := parseNumericMark it
  let agg :=
    match vw.1 with
    | none => { agg with non_numeric_count := agg.non_numeric_count + 1 }
    | some v =>
      let wEff := if vw.2 = 0 then 1 else vw.2
      { agg with
        numeric_count := agg.numeric_count + 1,
        sum := agg.sum + v,
        wsum := agg.wsum + v * wEff,
        weight := agg.weight + wEff }
  match agg.last_text with
  | none =>
    { agg with
      last_text := strOrNone (markText it),
      last_date := lastDateOf it }
  | some _ => agg

/-- Key membership in the `by_subject` dict. -/
def containsKey (l : List (String × SubAcc)) (k : String) : Bool :=
  l.any fun p => decide (p.1 = k)

/-- In-place mutation of one dict entry (position preserved). -/
def updateAssoc (l : List (String × SubAcc)) (k : String) (f : SubAcc → SubAcc) :
    List (String × SubAcc) :=
  l.map fun p => if p.1 = k then (p.1, f p.2) else p

/-- The mutable loop state of `aggregate_marks_for_child`: the `by_subject`
dict (insertion-ordered) and the overall accumulators. -/
structure AggState where
  bySubject : List (String × SubAcc)
  new_count : Nat
  overall_numeric : Nat
  overall_non_numeric : Nat
  overall_sum : ℚ
  overall_wsum : ℚ
  overall_w : ℚ
  deriving DecidableEq

/-- One iteration of the main loop of `aggregate_marks_for_child`. -/
def aggStep (st : AggState) (it : MarkRec) : AggState :=
  let k := subjKeyOf it
  let base := if containsKey st.bySubject k then st.bySubject
              else st.bySubject ++ [(k, initSubAcc it)]
  let bySub := updateAssoc base k (updSubAcc it)
  let newCount := if it.is_new then st.new_count + 1 else st.new_count
  match (parseNumericMark it).1 with
  | none =>
    ⟨bySub, newCount, st.overall_numeric, st.overall_non_numeric + 1,
      st.overall_sum, st.overall_wsum, st.overall_w⟩
  | some v =>
    let wEff := if (parseNumericMark it).2 = 0 then 1 else (parseNumericMark it).2
    ⟨bySub, newCount, st.overall_numeric + 1, st.overall_non_numeric,
      st.overall_sum + v, st.overall_wsum + v * wEff, st.overall_w + wEff⟩

/-- The full main loop. -/
def aggRun (items : List MarkRec) : AggState :=
  items.foldl aggStep ⟨[], 0, 0, 0, 0, 0, 0⟩

/-- Model of Python `round(x, 3)` on exact rationals (half-up; Python's
float `round` is half-even on the binary value, but no tie is ever exercised
by the concrete inputs of this development). -/
def pyRound3 (q : ℚ) : ℚ := ((⌊q * 1000 + 1 / 2⌋ : ℤ) : ℚ) / 1000

/-- A finalized per-subject statistics dict (intermediate sums deleted). -/
structure SubStats where
  subject_id : Option String
  subject_key : String
  subject_abbr : Option String
  subject_name : Option String
  count : Nat
  new_count : Nat
  numeric_count : Nat
  non_numeric_count : Nat
  avg : Option ℚ
  wavg : Option ℚ
  last_text : Option String
  last_date : Option String
  deriving DecidableEq

/-- The finalize pass of `aggregate_marks_for_child`:
`avg = round(sum/n, 3) if n > 0 else None`,
`wavg = round(wsum/w, 3) if w and w > 0 else avg`. -/
def finalizeSub (s : SubAcc) : SubStats :=
  let avg := if s.numeric_count > 0
    then some (pyRound3 (s.sum / (s.numeric_count : ℚ))) else none
  let wavg := if s.weight ≠ 0 ∧ s.weight > 0
    then some (pyRound3 (s.wsum / s.weight)) else avg
  ⟨s.subject_id, s.subject_key, s.subject_abbr, s.subject_name, s.count,
    s.new_count, s.numeric_count, s.non_numeric_count, avg, wavg,
    s.last_text, s.last_date⟩

/-- Stable insertion used to model Python's stable `list.sort`. -/
def insertLe {α : Type} (le : α → α → Bool) (x : α) : List α → List α
  | [] => [x]
  | y :: ys => if le x y then x :: y :: ys else y :: insertLe le x ys

/-- Stable sort modelling `list.sort(key=...)`. -/
def stableSortBy {α : Type} (le : α → α → Bool) : List α → List α
  | [] => []
  | x :: xs => insertLe le x (stableSortBy le xs)

/-- Lexicographic comparison of the Python sort key
`(s.get("subject_abbr") or "", s.get("subject_name") or "")`. -/
def subLe (a b : SubStats) : Bool :=
  let ka := (a.subject_abbr.getD "", a.subject_name.getD "")
  let kb := (b.subject_abbr.getD "", b.subject_name.getD "")
  if ka.1 = kb.1 then decide (ka.2 ≤ kb.2) else decide (ka.1 < kb.1)

/-- Result of `aggregate_marks_for_child` (the `overall` dict flattened). -/
structure AggResult where
  overall_total : Nat
  overall_new_count : Nat
  overall_numeric_count : Nat
  overall_non_numeric_count : Nat
  overall_average : Option ℚ
  overall_weighted_average : Option ℚ
  bySubject : List SubStats
  recent : List MarkRec
  deriving DecidableEq

/-- `aggregate_marks_for_child` on an explicit item list (the caller resolves
the coordinator data; `items[:20] if items else []` equals `take 20`). -/
def aggregateMarksForChild (items : List MarkRec) : AggResult :=
  let st := aggRun items
  let subjects := stableSortBy subLe (st.bySubject.map fun p => finalizeSub p.2)
  ⟨items.length, st.new_count, st.overall_numeric, st.overall_non_numeric,
    (if st.overall_numeric > 0
      then some (pyRound3 (st.overall_sum / (st.overall_numeric : ℚ))) else none),
    (if st.overall_w > 0
      then some (pyRound3 (st.overall_wsum / st.overall_w)) else none),
    subjects, items.take 20⟩

/-- Record with `numeric_value=2, weight=2`, used by the C8 theorem. -/
def c8rec : MarkRec :=
  { emptyMarkRec with numeric_value := some 2, weight := some 2 }

/-! ## Specification-side sums for the aggregation -/

/-- Numeric values extracted from a record list, in order. -/
def specValues (items : List MarkRec) : List ℚ :=
  items.filterMap fun it => (parseNumericMark it).1

/-- Number of numeric records. -/
def specNumCount (items : List MarkRec) : Nat := (specValues items).length

/-- Sum of extracted numeric values. -/
def specSum (items : List MarkRec) : ℚ := (specValues items).sum

/-- Effective weight `w or 1.0` of a record. -/
def specWEff (it : MarkRec) : ℚ :=
  if (parseNumericMark it).2 = 0 then 1 else (parseNumericMark it).2

/-- Weighted sum `Σ value·(w or 1)` over numeric records. -/
def specWSum (items : List MarkRec) : ℚ :=
  (items.filterMap fun it => ((parseNumericMark it).1).map fun v => v * specWEff it).sum

/-- Total effective weight over numeric records. -/
def specW (items : List MarkRec) : ℚ :=
  (items.filterMap fun it => ((parseNumericMark it).1).map fun _ => specWEff it).sum

/-- The records of one category. -/
def catItems (items : List MarkRec) (k : String) : List MarkRec :=
  items.filter fun it => decide (subjKeyOf it = k)

theorem aggStep_overall_none (st : AggState) {it : MarkRec}
    (hp : (parseNumericMark it).1 = none) :
    (aggStep st it).overall_numeric = st.overall_numeric
    ∧ (aggStep st it).overall_sum = st.overall_sum
    ∧ (aggStep st it).overall_wsum = st.overall_wsum
    ∧ (aggStep st it).overall_w = st.overall_w := by
  unfold aggStep
  simp [hp]

theorem aggStep_overall_some (st : AggState) {it : MarkRec} {v : ℚ}
    (hp : (parseNumericMark it).1 = some v) :
    (aggStep st it).overall_numeric = st.overall_numeric + 1
    ∧ (aggStep st it).overall_sum = st.overall_sum + v
    ∧ (aggStep st it).overall_wsum = st.overall_wsum + v * specWEff it
    ∧ (aggStep st it).overall_w = st.overall_w + specWEff it := by
  unfold aggStep specWEff
  simp [hp]

theorem spec_cons_none {it : MarkRec} (rest : List MarkRec)
    (hp : (parseNumericMark it).1 = none) :
    specNumCount (it :: rest) = specNumCount rest
    ∧ specSum (it :: rest) = specSum rest
    ∧ specWSum (it :: rest) = specWSum rest
    ∧ specW (it :: rest) = specW rest := by
  unfold specNumCount specSum specWSum specW specValues
  simp [List.filterMap_cons, hp]

theorem spec_cons_some {it : MarkRec} (rest : List MarkRec) {v : ℚ}
    (hp : (parseNumericMark it).1 = some v) :
    specNumCount (it :: rest) = specNumCount rest + 1
    ∧ specSum (it :: rest) = v + specSum rest
    ∧ specWSum (it :: rest) = v * specWEff it + specWSum rest
    ∧ specW (it :: rest) = specWEff it + specW rest := by
  unfold specNumCount specSum specWSum specW specValues
  simp [List.filterMap_cons, hp]

theorem aggRun_overall (items : List MarkRec) : ∀ st : AggState,
    (items.foldl aggStep st).overall_numeric = st.overall_numeric + specNumCount items
    ∧ (items.foldl aggStep st).overall_sum = st.overall_sum + specSum items
    ∧ (items.foldl aggStep st).overall_wsum = st.overall_wsum + specWSum items
    ∧ (items.foldl aggStep st).overall_w = st.overall_w + specW items := by
  induction items with
  | nil =>
    intro st
    unfold specNumCount specSum specWSum specW specValues
    simp
  | cons it rest ih =>
    intro st
    have hfold : (it :: rest).foldl aggStep st = rest.foldl aggStep (aggStep st it) :=
      rfl
    rw [hfold]
    obtain ⟨ih1, ih2, ih3, ih4⟩ := ih (aggStep st it)
    rcases hp : (parseNumericMark it).1 with _ | v
    · obtain ⟨s1, s2, s3, s4⟩ := aggStep_overall_none st hp
      obtain ⟨c1, c2, c3, c4⟩ := spec_cons_none rest hp
      rw [ih1, ih2, ih3, ih4, s1, s2, s3, s4, c1, c2, c3, c4]
      refine ⟨by omega, by ring, by ring, by ring⟩
    · obtain ⟨s1, s2, s3, s4⟩ := aggStep_overall_some st hp
      obtain ⟨c1, c2, c3, c4⟩ := spec_cons_some rest hp
      rw [ih1, ih2, ih3, ih4, s1, s2, s3, s4, c1, c2, c3, c4]
      refine ⟨by omega, by ring, by ring, by ring⟩

theorem updSubAcc_none {it : MarkRec} {a : SubAcc}
    (hp : (parseNumericMark it).1 = none) :
    (updSubAcc it a).numeric_count = a.numeric_count
    ∧ (updSubAcc it a).sum = a.sum
    ∧ (updSubAcc it a).wsum = a.wsum
    ∧ (updSubAcc it a).weight = a.weight
    ∧ (updSubAcc it a).subject_key = a.subject_key := by
  unfold updSubAcc
  simp only [hp]
  split <;> simp

theorem updSubAcc_some {it : MarkRec} {v : ℚ} {a : SubAcc}
    (hp : (parseNumericMark it).1 = some v) :
    (updSubAcc it a).numeric_count = a.numeric_count + 1
    ∧ (updSubAcc it a).sum = a.sum + v
    ∧ (updSubAcc it a).wsum = a.wsum + v * specWEff it
    ∧ (updSubAcc it a).weight = a.weight + specWEff it
    ∧ (updSubAcc it a).subject_key = a.subject_key := by
  unfold updSubAcc specWEff
  simp only [hp]
  split <;> simp

/-- C8: numeric extraction — text `"1-"` yields value `1.0` with default
weight `1.0`; text `"15/20"` yields `15.0` (first run of digits only);
explicit `numeric_value=2, weight=2` contributes `4.0` to the weighted sum of
its category (and to the overall weighted sum). -/
theorem c8_numeric_extraction :
    parseNumericMark { emptyMarkRec with mark_text := some "1-" } = (some 1, 1)
    ∧ parseNumericMark { emptyMarkRec with mark_text := some "15/20" }
        = (some 15, 1)
    ∧ (aggRun [c8rec]).overall_wsum = 4
    ∧ ((aggRun [c8rec]).bySubject.map fun p => p.2.wsum) = [4] := by
  have hparse : parseNumericMark c8rec = (some 2, 2) := by
    unfold c8rec parseNumericMark firstNumericField weightOf pyOrNum emptyMarkRec
    norm_num
  have hp1 : (parseNumericMark c8rec).1 = some 2 := by rw [hparse]
  have hwe : specWEff c8rec = 2 := by
    unfold specWEff
    rw [hparse]
    norm_num
  have hshape : (aggRun [c8rec]).bySubject
      = [(subjKeyOf c8rec, updSubAcc c8rec (initSubAcc c8rec))] := by
    show (aggStep ⟨[], 0, 0, 0, 0, 0, 0⟩ c8rec).bySubject = _
    unfold aggStep
    rw [hp1]
    dsimp only
    simp [containsKey, updateAssoc]
  refine ⟨?_, ?_, ?_, ?_⟩
  · decide
  · decide
  · have h0 : aggRun [c8rec] = aggStep ⟨[], 0, 0, 0, 0, 0, 0⟩ c8rec := rfl
    rw [h0]
    obtain ⟨-, -, hw, -⟩ :=
      aggStep_overall_some (⟨[], 0, 0, 0, 0, 0, 0⟩ : AggState) hp1
    rw [hw, hwe]
    norm_num
  · rw [hshape]
    obtain ⟨-, -, hw, -⟩ := updSubAcc_some (a := initSubAcc c8rec) hp1
    simp only [List.map_cons, List.map_nil, hw, hwe]
    norm_num [initSubAcc]

/-! ## Relating the `by_subject` dict to per-category sums -/

/-- First-match association lookup (keys in `by_subject` are unique, so this
agrees with dict lookup). -/
def alookup (l : List (String × SubAcc)) (k : String) : Option SubAcc :=
  match l with
  | [] => none
  | p :: rest => if p.1 = k then some p.2 else alookup rest k

theorem alookup_append_single (l : List (String × SubAcc)) (k : String)
    (a : SubAcc) :
    alookup (l ++ [(k, a)]) k
      = match alookup l k with
        | some b => some b
        | none => some a := by
  induction l with
  | nil => simp [alookup]
  | cons p rest ih =>
    by_cases h : p.1 = k
    · simp [alookup, h]
    · simp only [List.cons_append, alookup, h, if_neg, if_false]
      exact ih

theorem alookup_append_single_other (l : List (String × SubAcc)) {k k' : String}
    (h : k ≠ k') (a : SubAcc) :
    alookup (l ++ [(k, a)]) k' = alookup l k' := by
  induction l with
  | nil => simp [alookup, h]
  | cons p rest ih =>
    by_cases hp : p.1 = k'
    · simp [alookup, hp]
    · simp only [List.cons_append, alookup, hp, if_neg, if_false]
      exact ih

theorem alookup_updateAssoc_same (l : List (String × SubAcc)) (k : String)
    (f : SubAcc → SubAcc) :
    alookup (updateAssoc l k f) k = (alookup l k).map f := by
  induction l with
  | nil => rfl
  | cons p rest ih =>
    by_cases h : p.1 = k
    · simp [updateAssoc, alookup, h]
    · simp only [updateAssoc, List.map_cons, if_neg h]
      simp only [alookup, if_neg h]
      exact ih

theorem alookup_updateAssoc_other (l : List (String × SubAcc)) {k k' : String}
    (h : k ≠ k') (f : SubAcc → SubAcc) :
    alookup (updateAssoc l k f) k' = alookup l k' := by
  induction l with
  | nil => rfl
  | cons p rest ih =>
    by_cases hp : p.1 = k
    · have hp' : p.1 ≠ k' := by rw [hp]; exact h
      simp only [updateAssoc, List.map_cons, if_pos hp]
      simp only [alookup, if_neg hp']
      rw [← ih]
      rfl
    · simp only [updateAssoc, List.map_cons, if_neg hp]
      simp only [alookup]
      rw [← ih]
      rfl

theorem containsKey_eq_isSome (l : List (String × SubAcc)) (k : String) :
    containsKey l k = (alookup l k).isSome := by
  induction l with
  | nil => rfl
  | cons p rest ih =>
    by_cases h : p.1 = k
    · simp [containsKey, alookup, h]
    · simp only [containsKey, List.any_cons, alookup, if_neg h]
      simp only [containsKey] at ih
      simp [h, ih]

theorem aggStep_bySubject (st : AggState) (it : MarkRec) :
    (aggStep st it).bySubject =
      updateAssoc
        (if containsKey st.bySubject (subjKeyOf it) then st.bySubject
          else st.bySubject ++ [(subjKeyOf it, initSubAcc it)])
        (subjKeyOf it) (updSubAcc it) := by
  unfold aggStep
  rcases (parseNumericMark it).1 with _ | v
  · rfl
  · rfl

theorem alookup_aggStep_same (st : AggState) (it : MarkRec) :
    alookup (aggStep st it).bySubject (subjKeyOf it)
      = some (updSubAcc it
          ((alookup st.bySubject (subjKeyOf it)).getD (initSubAcc it))) := by
  rw [aggStep_bySubject]
  rcases hl : alookup st.bySubject (subjKeyOf it) with _ | a
  · have hc : containsKey st.bySubject (subjKeyOf it) = false := by
      rw [containsKey_eq_isSome, hl]
      rfl
    rw [hc]
    simp only [Bool.false_eq_true, if_false]
    rw [alookup_updateAssoc_same, alookup_append_single, hl]
    rfl
  · have hc : containsKey st.bySubject (subjKeyOf it) = true := by
      rw [containsKey_eq_isSome, hl]
      rfl
    rw [hc, if_pos rfl, alookup_updateAssoc_same, hl]
    rfl

theorem alookup_aggStep_other (st : AggState) (it : MarkRec) {k : String}
    (hk : subjKeyOf it ≠ k) :
    alookup (aggStep st it).bySubject k = alookup st.bySubject k := by
  rw [aggStep_bySubject, alookup_updateAssoc_other _ hk]
  rcases containsKey st.bySubject (subjKeyOf it) with _ | _
  · simp only [Bool.false_eq_true, if_false]
    rw [alookup_append_single_other _ hk]
  · simp only [if_true]

/-- Fold of the per-subject mutations over a record list. -/
def subjFold (l : List MarkRec) (a : SubAcc) : SubAcc :=
  l.foldl (fun acc it => updSubAcc it acc) a

/-- The accumulator the loop produces for subject key `k`, described from
the per-category record list alone. -/
def subjAccOf (items : List MarkRec) (k : String) : Option SubAcc :=
  match catItems items k with
  | [] => none
  | it :: rest => some (subjFold rest (updSubAcc it (initSubAcc it)))

theorem catItems_cons_pos {it : MarkRec} {k : String} (rest : List MarkRec)
    (h : subjKeyOf it = k) :
    catItems (it :: rest) k = it :: catItems rest k := by
  simp [catItems, List.filter_cons, h]

theorem catItems_cons_neg {it : MarkRec} {k : String} (rest : List MarkRec)
    (h : subjKeyOf it ≠ k) :
    catItems (it :: rest) k = catItems rest k := by
  simp [catItems, List.filter_cons, h]

theorem alookup_aggFold (items : List MarkRec) : ∀ (st : AggState) (k : String),
    alookup (items.foldl aggStep st).bySubject k
      = match alookup st.bySubject k with
        | some a => some (subjFold (catItems items k) a)
        | none => subjAccOf items k := by
  induction items with
  | nil =>
    intro st k
    simp only [List.foldl_nil]
    rcases alookup st.bySubject k with _ | a
    · rfl
    · rfl
  | cons it rest ih =>
    intro st k
    have hfold : (it :: rest).foldl aggStep st = rest.foldl aggStep (aggStep st it) :=
      rfl
    rw [hfold, ih (aggStep st it) k]
    by_cases hk : subjKeyOf it = k
    · subst hk
      rw [alookup_aggStep_same]
      rcases hl : alookup st.bySubject (subjKeyOf it) with _ | a
      · simp only [Option.getD_none]
        unfold subjAccOf
        rw [catItems_cons_pos rest rfl]
      · simp only [Option.getD_some]
        rw [catItems_cons_pos rest rfl]
        rfl
    · rw [alookup_aggStep_other st it hk]
      rcases alookup st.bySubject k with _ | a
      · unfold subjAccOf
        rw [catItems_cons_neg rest hk]
      · rw [catItems_cons_neg rest hk]

theorem subjFold_stats (l : List MarkRec) : ∀ a : SubAcc,
    (subjFold l a).numeric_count = a.numeric_count + specNumCount l
    ∧ (subjFold l a).sum = a.sum + specSum l
    ∧ (subjFold l a).wsum = a.wsum + specWSum l
    ∧ (subjFold l a).weight = a.weight + specW l
    ∧ (subjFold l a).subject_key = a.subject_key := by
  induction l with
  | nil =>
    intro a
    unfold subjFold specNumCount specSum specWSum specW specValues
    simp
  | cons it rest ih =>
    intro a
    have hfold : subjFold (it :: rest) a = subjFold rest (updSubAcc it a) := rfl
    rw [hfold]
    obtain ⟨ih1, ih2, ih3, ih4, ih5⟩ := ih (updSubAcc it a)
    rcases hp : (parseNumericMark it).1 with _ | v
    · obtain ⟨u1, u2, u3, u4, u5⟩ := updSubAcc_none (a := a) hp
      obtain ⟨c1, c2, c3, c4⟩ := spec_cons_none rest hp
      rw [ih1, ih2, ih3, ih4, ih5, u1, u2, u3, u4, u5, c1, c2, c3, c4]
      exact ⟨rfl, rfl, rfl, rfl, rfl⟩
    · obtain ⟨u1, u2, u3, u4, u5⟩ := updSubAcc_some (a := a) hp
      obtain ⟨c1, c2, c3, c4⟩ := spec_cons_some rest hp
      rw [ih1, ih2, ih3, ih4, ih5, u1, u2, u3, u4, u5, c1, c2, c3, c4]
      refine ⟨by omega, by ring, by ring, by ring, rfl⟩

theorem subjAccOf_stats {items : List MarkRec} {k : String} {a : SubAcc}
    (h : subjAccOf items k = some a) :
    a.numeric_count = specNumCount (catItems items k)
    ∧ a.sum = specSum (catItems items k)
    ∧ a.wsum = specWSum (catItems items k)
    ∧ a.weight = specW (catItems items k)
    ∧ a.subject_key = k := by
  unfold subjAccOf at h
  rcases hcat : catItems items k with _ | ⟨it, rest⟩
  · rw [hcat] at h
    cases h
  · rw [hcat] at h
    injection h with h2
    subst h2
    obtain ⟨f1, f2, f3, f4, f5⟩ := subjFold_stats rest (updSubAcc it (initSubAcc it))
    have hkey : subjKeyOf it = k := by
      have hmem : it ∈ catItems items k := by
        rw [hcat]
        exact List.mem_cons_self it rest
      unfold catItems at hmem
      have := List.of_mem_filter hmem
      exact of_decide_eq_true this
    have hz1 : (initSubAcc it).numeric_count = 0 := rfl
    have hz2 : (initSubAcc it).sum = 0 := rfl
    have hz3 : (initSubAcc it).wsum = 0 := rfl
    have hz4 : (initSubAcc it).weight = 0 := rfl
    rcases hp : (parseNumericMark it).1 with _ | v
    · obtain ⟨u1, u2, u3, u4, u5⟩ := updSubAcc_none (a := initSubAcc it) hp
      obtain ⟨c1, c2, c3, c4⟩ := spec_cons_none rest hp
      rw [f1, f2, f3, f4, f5, u1, u2, u3, u4, u5, c1, c2, c3, c4,
        hz1, hz2, hz3, hz4]
      refine ⟨by omega, by ring, by ring, by ring, ?_⟩
      rw [show (initSubAcc it).subject_key = subjKeyOf it from rfl]
      exact hkey
    · obtain ⟨u1, u2, u3, u4, u5⟩ := updSubAcc_some (a := initSubAcc it) hp
      obtain ⟨c1, c2, c3, c4⟩ := spec_cons_some rest hp
      rw [f1, f2, f3, f4, f5, u1, u2, u3, u4, u5, c1, c2, c3, c4,
        hz1, hz2, hz3, hz4]
      refine ⟨by omega, by ring, by ring, by ring, ?_⟩
      rw [show (initSubAcc it).subject_key = subjKeyOf it from rfl]
      exact hkey

/-- Keys of the `by_subject` dict. -/
def keysOf (l : List (String × SubAcc)) : List String := l.map Prod.fst

theorem keysOf_updateAssoc (l : List (String × SubAcc)) (k : String)
    (f : SubAcc → SubAcc) : keysOf (updateAssoc l k f) = keysOf l := by
  induction l with
  | nil => rfl
  | cons p rest ih =>
    by_cases h : p.1 = k
    · simp only [updateAssoc, keysOf, List.map_cons, if_pos h]
      simp only [updateAssoc, keysOf] at ih
      rw [ih]
    · simp only [updateAssoc, keysOf, List.map_cons, if_neg h]
      simp only [updateAssoc, keysOf] at ih
      rw [ih]

theorem containsKey_eq_mem_keys (l : List (String × SubAcc)) (k : String) :
    containsKey l k = true ↔ k ∈ keysOf l := by
  unfold containsKey keysOf
  simp [List.any_eq_true]

theorem aggStep_keys_nodup (st : AggState) (it : MarkRec)
    (h : (keysOf st.bySubject).Nodup) :
    (keysOf (aggStep st it).bySubject).Nodup := by
  rw [aggStep_bySubject, keysOf_updateAssoc]
  rcases hc : containsKey st.bySubject (subjKeyOf it) with _ | _
  · simp only [Bool.false_eq_true, if_false]
    have hnot : subjKeyOf it ∉ keysOf st.bySubject := by
      intro hmem
      rw [← containsKey_eq_mem_keys] at hmem
      rw [hc] at hmem
      cases hmem
    have hk : keysOf (st.bySubject ++ [(subjKeyOf it, initSubAcc it)])
        = keysOf st.bySubject ++ [subjKeyOf it] := by
      unfold keysOf
      rw [List.map_append]
      rfl
    rw [hk]
    rw [List.nodup_append]
    exact ⟨h, List.nodup_singleton _, by simpa using hnot⟩
  · simp only [if_true]
    exact h

theorem aggRun_keys_nodup (items : List MarkRec) :
    (keysOf (aggRun items).bySubject).Nodup := by
  suffices hs : ∀ st : AggState, (keysOf st.bySubject).Nodup →
      (keysOf (items.foldl aggStep st).bySubject).Nodup by
    exact hs ⟨[], 0, 0, 0, 0, 0, 0⟩ List.nodup_nil
  induction items with
  | nil => intro st h; exact h
  | cons it rest ih =>
    intro st h
    exact ih (aggStep st it) (aggStep_keys_nodup st it h)

theorem alookup_of_mem {l : List (String × SubAcc)} (hnd : (keysOf l).Nodup)
    {p : String × SubAcc} (hp : p ∈ l) : alookup l p.1 = some p.2 := by
  induction l with
  | nil => cases hp
  | cons q rest ih =>
    rcases List.mem_cons.mp hp with rfl | hp'
    · unfold alookup
      rw [if_pos rfl]
    · have hnd' : (keysOf rest).Nodup := (List.nodup_cons.mp hnd).2
      have hq : q.1 ∉ keysOf rest := by
        have := (List.nodup_cons.mp hnd).1
        simpa [keysOf] using this
      have hne : q.1 ≠ p.1 := by
        intro he
        apply hq
        rw [he]
        exact List.mem_map.mpr ⟨p, hp', rfl⟩
      unfold alookup
      rw [if_neg hne]
      exact ih hnd' hp'

theorem mem_insertLe {α : Type} (le : α → α → Bool) (x a : α) :
    ∀ (l : List α), a ∈ insertLe le x l ↔ a = x ∨ a ∈ l := by
  intro l
  induction l with
  | nil => simp [insertLe]
  | cons y ys ih =>
    unfold insertLe
    by_cases h : le x y = true
    · rw [if_pos h]
      simp [List.mem_cons]
    · rw [if_neg h]
      simp only [List.mem_cons, ih]
      tauto

theorem mem_stableSortBy {α : Type} (le : α → α → Bool) (a : α) :
    ∀ (l : List α), a ∈ stableSortBy le l ↔ a ∈ l := by
  intro l
  induction l with
  | nil => simp [stableSortBy]
  | cons x xs ih =>
    unfold stableSortBy
    rw [mem_insertLe, ih]
    simp [List.mem_cons]

theorem aggRun_eq (items : List MarkRec) :
    aggRun items = items.foldl aggStep ⟨[], 0, 0, 0, 0, 0, 0⟩ := rfl

theorem aggregateMarks_overall_average (items : List MarkRec) :
    (aggregateMarksForChild items).overall_average
      = if (aggRun items).overall_numeric > 0
        then some (pyRound3
          ((aggRun items).overall_sum / ((aggRun items).overall_numeric : ℚ)))
        else none := rfl

theorem aggregateMarks_overall_weighted (items : List MarkRec) :
    (aggregateMarksForChild items).overall_weighted_average
      = if (aggRun items).overall_w > 0
        then some (pyRound3 ((aggRun items).overall_wsum / (aggRun items).overall_w))
        else none := rfl

theorem aggregateMarks_bySubject (items : List MarkRec) :
    (aggregateMarksForChild items).bySubject
      = stableSortBy subLe ((aggRun items).bySubject.map fun p => finalizeSub p.2) :=
  rfl

theorem aggRun_overall_spec (items : List MarkRec) :
    (aggRun items).overall_numeric = specNumCount items
    ∧ (aggRun items).overall_sum = specSum items
    ∧ (aggRun items).overall_wsum = specWSum items
    ∧ (aggRun items).overall_w = specW items := by
  obtain ⟨h1, h2, h3, h4⟩ := aggRun_overall items ⟨[], 0, 0, 0, 0, 0, 0⟩
  rw [aggRun_eq]
  refine ⟨?_, ?_, ?_, ?_⟩
  · rw [h1]
    show 0 + specNumCount items = specNumCount items
    omega
  · rw [h2]
    show 0 + specSum items = specSum items
    rw [zero_add]
  · rw [h3]
    show 0 + specWSum items = specWSum items
    rw [zero_add]
  · rw [h4]
    show 0 + specW items = specW items
    rw [zero_add]

theorem finalizeSub_avg (a : SubAcc) :
    (finalizeSub a).avg
      = if a.numeric_count > 0
        then some (pyRound3 (a.sum / (a.numeric_count : ℚ))) else none := rfl

theorem finalizeSub_wavg (a : SubAcc) :
    (finalizeSub a).wavg
      = if a.weight ≠ 0 ∧ a.weight > 0
        then some (pyRound3 (a.wsum / a.weight)) else (finalizeSub a).avg := rfl

theorem finalizeSub_key (a : SubAcc) :
    (finalizeSub a).subject_key = a.subject_key := rfl

/-- C9 (corrected): the aggregation's simple average is
`round(sum/numeric_count, 3)` (`None` when there is no numeric record), the
weighted average is `round(Σ(value·(w or 1))/Σ(w or 1), 3)`, and when the
total weight is not positive the *per-category* weighted average falls back
to the category's simple average while the *overall* weighted average is
`None` — the fallback does not hold for the overall statistics. -/
theorem c9_average_formulas (items : List MarkRec) :
    ((aggregateMarksForChild items).overall_average
      = if 0 < specNumCount items
        then some (pyRound3 (specSum items / (specNumCount items : ℚ)))
        else none)
    ∧ ((aggregateMarksForChild items).overall_weighted_average
      = if 0 < specW items
        then some (pyRound3 (specWSum items / specW items)) else none)
    ∧ ∀ s ∈ (aggregateMarksForChild items).bySubject,
        (s.avg = if 0 < specNumCount (catItems items s.subject_key)
          then some (pyRound3 (specSum (catItems items s.subject_key)
            / (specNumCount (catItems items s.subject_key) : ℚ)))
          else none)
        ∧ (s.wavg = if 0 < specW (catItems items s.subject_key)
          then some (pyRound3 (specWSum (catItems items s.subject_key)
            / specW (catItems items s.subject_key)))
          else s.avg) := by
  obtain ⟨hN, hS, hWS, hW⟩ := aggRun_overall_spec items
  refine ⟨?_, ?_, ?_⟩
  · rw [aggregateMarks_overall_average, hN, hS]
  · rw [aggregateMarks_overall_weighted, hW, hWS]
  · intro s hs
    rw [aggregateMarks_bySubject, mem_stableSortBy, List.mem_map] at hs
    obtain ⟨p, hpmem, rfl⟩ := hs
    have hnd : (keysOf (aggRun items).bySubject).Nodup := aggRun_keys_nodup items
    have hlk : alookup (aggRun items).bySubject p.1 = some p.2 :=
      alookup_of_mem hnd hpmem
    have hfold := alookup_aggFold items ⟨[], 0, 0, 0, 0, 0, 0⟩ p.1
    rw [← aggRun_eq] at hfold
    rw [hlk] at hfold
    have hacc : subjAccOf items p.1 = some p.2 := hfold.symm
    obtain ⟨a1, a2, a3, a4, a5⟩ := subjAccOf_stats hacc
    have hkey : (finalizeSub p.2).subject_key = p.1 := by
      rw [finalizeSub_key]
      exact a5
    rw [hkey]
    constructor
    · rw [finalizeSub_avg, a1, a2]
    · rw [finalizeSub_wavg, a3, a4]
      by_cases hw : 0 < specW (catItems items p.1)
      · rw [if_pos ⟨ne_of_gt hw, hw⟩, if_pos hw]
      · rw [if_neg (fun hc => hw hc.2), if_neg hw]

theorem aggRun_single_bySubject (it : MarkRec) :
    (aggRun [it]).bySubject = [(subjKeyOf it, updSubAcc it (initSubAcc it))] := by
  have h0 : aggRun [it] = aggStep ⟨[], 0, 0, 0, 0, 0, 0⟩ it := rfl
  rw [h0, aggStep_bySubject]
  have hc : containsKey (⟨[], 0, 0, 0, 0, 0, 0⟩ : AggState).bySubject
      (subjKeyOf it) = false := rfl
  rw [hc]
  simp [updateAssoc]

/-- Single-record input for the C9 witness. -/
def c9wRec : MarkRec := { emptyMarkRec with numeric_value := some 3 }

/-- The per-subject stats `aggregate_marks_for_child [c9wRec]` publishes. -/
def c9wSub : SubStats := finalizeSub (updSubAcc c9wRec (initSubAcc c9wRec))

/-- Witness for C9: the per-category average formulas at a concrete input. -/
theorem c9_average_formulas_witness :
    (c9wSub.avg = if 0 < specNumCount (catItems [c9wRec] c9wSub.subject_key)
      then some (pyRound3 (specSum (catItems [c9wRec] c9wSub.subject_key)
        / (specNumCount (catItems [c9wRec] c9wSub.subject_key) : ℚ)))
      else none)
    ∧ (c9wSub.wavg = if 0 < specW (catItems [c9wRec] c9wSub.subject_key)
      then some (pyRound3 (specWSum (catItems [c9wRec] c9wSub.subject_key)
        / specW (catItems [c9wRec] c9wSub.subject_key)))
      else c9wSub.avg) :=
  (c9_average_formulas [c9wRec]).2.2 c9wSub (by
    rw [aggregateMarks_bySubject, aggRun_single_bySubject]
    show c9wSub ∈ stableSortBy subLe [c9wSub]
    show c9wSub ∈ [c9wSub]
    exact List.mem_singleton.mpr rfl)

/-- First record of the C9 counterexample: value 1, weight 2. -/
def cxA : MarkRec := { emptyMarkRec with numeric_value := some 1, weight := some 2 }

/-- Second record of the C9 counterexample: value 3, weight -2. -/
def cxB : MarkRec :=
  { emptyMarkRec with numeric_value := some 3, weight := some (-2) }

/-- Counterexample to C9 as stated: on a record list whose total effective
weight is zero, the overall simple average is `2.0` but the overall weighted
average is `None` — it does *not* fall back to the simple average the way the
per-category statistic does. -/
theorem c9_counterexample :
    specW [cxA, cxB] = 0
    ∧ (aggregateMarksForChild [cxA, cxB]).overall_average = some 2
    ∧ (aggregateMarksForChild [cxA, cxB]).overall_weighted_average = none := by
  have hpA : parseNumericMark cxA = (some 1, 2) := by
    unfold cxA parseNumericMark firstNumericField weightOf pyOrNum emptyMarkRec
    norm_num
  have hpB : parseNumericMark cxB = (some 3, -2) := by
    unfold cxB parseNumericMark firstNumericField weightOf pyOrNum emptyMarkRec
    norm_num
  have hpA1 : (parseNumericMark cxA).1 = some 1 := by rw [hpA]
  have hpB1 : (parseNumericMark cxB).1 = some 3 := by rw [hpB]
  have hwA : specWEff cxA = 2 := by
    unfold specWEff
    rw [hpA]
    norm_num
  have hwB : specWEff cxB = -2 := by
    unfold specWEff
    rw [hpB]
    norm_num
  obtain ⟨cA1, cA2, cA3, cA4⟩ := spec_cons_some [cxB] hpA1
  obtain ⟨cB1, cB2, cB3, cB4⟩ := spec_cons_some ([] : List MarkRec) hpB1
  have hn0 : specNumCount ([] : List MarkRec) = 0 := rfl
  have hs0 : specSum ([] : List MarkRec) = 0 := rfl
  have hw0 : specW ([] : List MarkRec) = 0 := rfl
  have hNv : specNumCount [cxA, cxB] = 2 := by rw [cA1, cB1, hn0]
  have hSv : specSum [cxA, cxB] = 4 := by
    rw [cA2, cB2, hs0]
    norm_num
  have hWv : specW [cxA, cxB] = 0 := by
    rw [cA4, cB4, hw0, hwA, hwB]
    norm_num
  obtain ⟨hN, hS, hWS, hW⟩ := aggRun_overall_spec [cxA, cxB]
  refine ⟨hWv, ?_, ?_⟩
  · rw [aggregateMarks_overall_average, hN, hS, hNv, hSv]
    rw [if_pos (by norm_num)]
    have hq : (4 : ℚ) / ((2 : ℕ) : ℚ) = 2 := by norm_num
    have hr : pyRound3 (2 : ℚ) = 2 := by
      unfold pyRound3
      have hfl : ⌊(2 : ℚ) * 1000 + 1 / 2⌋ = (2000 : ℤ) :=
        Int.floor_eq_iff.mpr ⟨by norm_num, by norm_num⟩
      rw [hfl]
      norm_num
    rw [hq, hr]
  · rw [aggregateMarks_overall_weighted, hW, hWv]
    rw [if_neg (by norm_num)]

/-! ## Authenticated client (`api.py`) -/

/-- Python-level error escaping `_api_call` (dict indexing of a missing
child id raises `KeyError`). -/
inductive PyErr
  | keyError
  deriving DecidableEq

/-- Persisted child record as read by the client. -/
structure ChildRec where
  user_id : Option String
  username : Option String
  name : Option String
  surname : Option String
  server : Option String
  access_token : Option String
  refresh_token : Option String
  deriving DecidableEq

/-- The `{}` default of `new_children.get(self.child_id, {})`. -/
def emptyChildRec : ChildRec := ⟨none, none, none, none, none, none, none⟩

/-- In-memory `Bakalari` session, reduced to its credentials' tokens (the
remote call may rotate them). -/
structure LibM where
  accessTok : Option String
  refreshTok : Option String
  deriving DecidableEq

/-- One reauth flow request: the `data` passed to `flow.async_init` by
`_start_reauth`. -/
structure ReauthReq where
  childId : String
  server : Option String
  username : Option String
  displayName : String
  reason : String
  deriving DecidableEq

/-- State of one `BakalariClient` together with the persisted children map
and the reauth flows started so far; `constructions` counts how many times a
`Bakalari` session object has been constructed. -/
structure ClientState where
  childId : String
  children : List (String × ChildRec)
  lib : Option LibM
  lastTokens : Option (Option String × Option String)
  reauths : List ReauthReq
  constructions : Nat
  deriving DecidableEq

/-- Python truthiness of an optional string. -/
def truthyStr (o : Option String) : Bool :=
  match o with
  | none => false
  | some s => decide (s ≠ "")

/-- `_validate_child_tokens`: false iff both tokens are falsy. -/
def validateChildTokens (c : ChildRec) : Bool :=
  truthyStr c.access_token || truthyStr c.refresh_token

/-- `_current_child`: dict indexing, raising `KeyError` when absent. -/
def currentChild (s : ClientState) : Except PyErr ChildRec :=
  match dlookup s.children s.childId with
  | none => .error .keyError
  | some c => .ok c

/-- `_snapshot_tokens` (the model's lib always has credentials). -/
def snapshotTokens (s : ClientState) : Option (Option String × Option String) :=
  s.lib.map fun l => (l.accessTok, l.refreshTok)

/-- `_is_lib`: return the session, creating it at most once (the
double-checked lock collapses in the sequential model); `None` when the
child record has no usable tokens, sending the caller down the reauth
branch.  A `KeyError` from `_current_child` propagates. -/
def isLib (s : ClientState) : Except PyErr (Option LibM × ClientState) :=
  match currentChild s with
  | .error e => .error e
  | .ok child =>
    match s.lib with
    | none =>
      if validateChildTokens child then
        let lib : LibM := ⟨child.access_token, child.refresh_token⟩
        let s1 := { s with lib := some lib, constructions := s.constructions + 1 }
        let s2 := { s1 with lastTokens := snapshotTokens s1 }
        if validateChildTokens child then .ok (some lib, s2) else .ok (none, s2)
      else .ok (none, s)
    | some lib =>
      let s2 := { s with lastTokens := snapshotTokens s }
      if validateChildTokens child then .ok (some lib, s2) else .ok (none, s2)

/-- `_reset_tokens_and_client`: blank the persisted tokens for this child
(creating the slot if it vanished, via `.get(child_id, {})`), drop the
session and the token snapshot. -/
def resetTokensAndClient (s : ClientState) : ClientState :=
  let old := (dlookup s.children s.childId).getD emptyChildRec
  let child := { old with access_token := some "", refresh_token := some "" }
  { s with
    children := dinsert s.children s.childId child,
    lastTokens := none,
    lib := none }

/-- `_start_reauth`: create one reauth flow; any exception while building the
payload (e.g. the child id vanished from the map) is swallowed. -/
def startReauth (s : ClientState) (reason : String) : ClientState :=
  match dlookup s.children s.childId with
  | none => s
  | some c =>
    { s with reauths := s.reauths ++
        [⟨s.childId, c.server, c.username,
          pyStr c.name ++ " " ++ pyStr c.surname, reason⟩] }

/-- `_tokens_changed`: `bool(current and current != self._last_tokens)`. -/
def tokensChanged (s : ClientState) : Bool :=
  match snapshotTokens s with
  | none => false
  | some cur => decide (some cur ≠ s.lastTokens)

/-- `_save_tokens_if_changed` (the re-check under the lock collapses in the
sequential model; `new_children[self.child_id]` raises when absent). -/
def saveTokensIfChanged (s : ClientState) : Except PyErr ClientState :=
  if tokensChanged s then
    match s.lib with
    | none => .ok s
    | some lib =>
      match dlookup s.children s.childId with
      | none => .error .keyError
      | some child =>
        let at_ := lib.accessTok.getD ""
        let rt := lib.refreshTok.getD ""
        let child2 :=
          { child with access_token := some at_, refresh_token := some rt }
        .ok { s with
          children := dinsert s.children s.childId child2,
          lastTokens := some (some at_, some rt) }
  else .ok s

/-- Exception classes of the remote library that an operation can raise. -/
inductive ExKind
  | refreshTokenExpired
  | refreshTokenRedeemd
  | invalidToken
  | otherError
  deriving DecidableEq

/-- What the wrapped operation does when it runs: return a value or raise an
exception, in both cases possibly rotating the session's tokens first. -/
inductive OpBehavior (α : Type)
  | succeed (v : α) (rot : Option (Option String × Option String))
  | raiseEx (e : ExKind) (rot : Option (Option String × Option String))

/-- Call mode of `_api_call`: `single`/`callable` run `_execute`, whose
except clause catches `RefreshTokenRedeemd` and `InvalidToken`; `chain` runs
`_chain_exec`, which additionally catches `RefreshTokenExpired`. -/
inductive CallMode
  | singleOrCallable
  | chain
  deriving DecidableEq

/-- Which exception classes the mode's auth-except clause catches. -/
def isAuthEx (mode : CallMode) (e : ExKind) : Bool :=
  match mode, e with
  | _, .refreshTokenRedeemd => true
  | _, .invalidToken => true
  | .chain, .refreshTokenExpired => true
  | _, _ => false

/-- Token rotation performed by the remote call on the live session. -/
def applyRot (s : ClientState)
    (rot : Option (Option String × Option String)) : ClientState :=
  match rot, s.lib with
  | some t, some _ => { s with lib := some ⟨t.1, t.2⟩ }
  | _, _ => s

/-- `_api_call`: the uniform envelope.  The `_fetch_lock` is a no-op in the
sequential model and `label` is only a log tag.  The lib-missing branch
returns *before* the `try`, so no token save runs there; the except branches
return inside the `try`, so the `finally` save still runs after them. -/
def apiCall {α : Type} (mode : CallMode) (s : ClientState) (label : String)
    (reauthReason : Option String) (default : α) (op : OpBehavior α) :
    Except PyErr (α × ClientState) :=
  match isLib s with
  | .error e => .error e
  | .ok (none, s1) =>
    let s2 := resetTokensAndClient s1
    let s3 := startReauth s2 (reauthReason.getD "")
    .ok (default, s3)
  | .ok (some _, s1) =>
    match op with
    | .succeed v rot =>
      match saveTokensIfChanged (applyRot s1 rot) with
      | .error e2 => .error e2
      | .ok s3 => .ok (v, s3)
    | .raiseEx e rot =>
      let s2 := applyRot s1 rot
      if isAuthEx mode e then
        let s3 := resetTokensAndClient s2
        let s4 := startReauth s3 (reauthReason.getD "")
        match saveTokensIfChanged s4 with
        | .error e2 => .error e2
        | .ok s5 => .ok (default, s5)
      else
        match saveTokensIfChanged s2 with
        | .error e2 => .error e2
        | .ok s5 => .ok (default, s5)

theorem dlookup_dinsert_self {β : Type} (l : List (String × β)) (k : String)
    (v : β) : dlookup (dinsert l k v) k = some v := by
  unfold dinsert dlookup
  rw [List.foldl_append]
  show (if k = k then some v else _) = some v
  rw [if_pos rfl]

theorem isLib_cases {s : ClientState} {c : ChildRec}
    (hc : dlookup s.children s.childId = some c) :
    (validateChildTokens c = false →
      ∃ s1, isLib s = .ok (none, s1) ∧ s1.childId = s.childId
        ∧ s1.children = s.children ∧ s1.reauths = s.reauths
        ∧ s1.constructions = s.constructions)
    ∧ (validateChildTokens c = true →
      ∃ lib s1, isLib s = .ok (some lib, s1) ∧ s1.childId = s.childId
        ∧ s1.children = s.children ∧ s1.reauths = s.reauths) := by
  unfold isLib currentChild
  rw [hc]
  dsimp only
  constructor
  · intro hv
    have hneg : ¬ (validateChildTokens c = true) := by
      rw [hv]
      exact Bool.false_ne_true
    rcases hl : s.lib with _ | lib
    · dsimp only
      rw [if_neg hneg]
      exact ⟨s, rfl, rfl, rfl, rfl, rfl⟩
    · dsimp only
      rw [if_neg hneg]
      exact ⟨_, rfl, rfl, rfl, rfl, rfl⟩
  · intro hv
    rcases hl : s.lib with _ | lib
    · dsimp only
      rw [if_pos hv, if_pos hv]
      exact ⟨_, _, rfl, rfl, rfl, rfl⟩
    · dsimp only
      rw [if_pos hv]
      exact ⟨lib, _, rfl, rfl, rfl, rfl⟩

theorem saveTokens_ok {s : ClientState} {c : ChildRec}
    (hc : dlookup s.children s.childId = some c) :
    ∃ s2, saveTokensIfChanged s = .ok s2 ∧ s2.reauths = s.reauths
      ∧ s2.childId = s.childId
      ∧ ∃ c2, dlookup s2.children s2.childId = some c2 := by
  unfold saveTokensIfChanged
  rcases htc : tokensChanged s with _ | _
  · simp only [Bool.false_eq_true, if_false]
    exact ⟨s, rfl, rfl, rfl, c, hc⟩
  · simp only [if_true]
    rcases hl : s.lib with _ | lib
    · exact ⟨s, rfl, rfl, rfl, c, hc⟩
    · rw [hc]
      refine ⟨_, rfl, rfl, rfl, ?_⟩
      exact ⟨_, dlookup_dinsert_self _ _ _⟩

theorem resetTokens_facts (s : ClientState) :
    (resetTokensAndClient s).childId = s.childId
    ∧ (resetTokensAndClient s).reauths = s.reauths
    ∧ (resetTokensAndClient s).constructions = s.constructions
    ∧ dlookup (resetTokensAndClient s).children (resetTokensAndClient s).childId
      = some { (dlookup s.children s.childId).getD emptyChildRec with
          access_token := some "", refresh_token := some "" } :=
  ⟨rfl, rfl, rfl, dlookup_dinsert_self _ _ _⟩

theorem startReauth_facts {s : ClientState} {c : ChildRec} (reason : String)
    (hc : dlookup s.children s.childId = some c) :
    startReauth s reason
      = { s with reauths := s.reauths ++
          [⟨s.childId, c.server, c.username,
            pyStr c.name ++ " " ++ pyStr c.surname, reason⟩] } := by
  unfold startReauth
  rw [hc]

theorem startReauth_children (s : ClientState) (reason : String) :
    (startReauth s reason).children = s.children
    ∧ (startReauth s reason).childId = s.childId := by
  unfold startReauth
  rcases dlookup s.children s.childId with _ | c
  · exact ⟨rfl, rfl⟩
  · exact ⟨rfl, rfl⟩

theorem applyRot_facts (s : ClientState)
    (rot : Option (Option String × Option String)) :
    (applyRot s rot).childId = s.childId
    ∧ (applyRot s rot).children = s.children
    ∧ (applyRot s rot).reauths = s.reauths := by
  unfold applyRot
  rcases rot with _ | t
  · exact ⟨rfl, rfl, rfl⟩
  · rcases s.lib with _ | lib
    · exact ⟨rfl, rfl, rfl⟩
    · exact ⟨rfl, rfl, rfl⟩

/-- C2 (corrected): whenever the client's child id is present in the
persisted children map, `_api_call` never raises: it returns `.ok`, with the
supplied default substituted on every failure (missing/invalid tokens,
auth-class errors, any other exception from the operation).  When the child
id is absent from the map, `_current_child` raises `KeyError` to the caller
(see the counterexample). -/
theorem c2_api_call_default_on_failure {α : Type} (mode : CallMode)
    (s : ClientState) (label : String) (rr : Option String) (default : α)
    (op : OpBehavior α) (c : ChildRec)
    (hc : dlookup s.children s.childId = some c) :
    (∃ p, apiCall mode s label rr default op = .ok p)
    ∧ (∀ e rot, op = OpBehavior.raiseEx e rot →
        ∃ s2, apiCall mode s label rr default op = .ok (default, s2))
    ∧ (validateChildTokens c = false →
        ∃ s2, apiCall mode s label rr default op = .ok (default, s2)) := by
  obtain ⟨hfalse, htrue⟩ := isLib_cases hc
  have hmain : ∀ e rot, op = OpBehavior.raiseEx e rot →
      ∃ s2, apiCall mode s label rr default op = .ok (default, s2) := by
    intro e rot hop
    subst hop
    unfold apiCall
    rcases hv : validateChildTokens c with _ | _
    · obtain ⟨s1, hLib, _, _, _, _⟩ := hfalse hv
      rw [hLib]
      exact ⟨_, rfl⟩
    · obtain ⟨lib, s1, hLib, hid, hch, _⟩ := htrue hv
      rw [hLib]
      dsimp only
      rcases hae : isAuthEx mode e with _ | _
      · simp only [Bool.false_eq_true, if_false]
        obtain ⟨ra, rb, rc⟩ := applyRot_facts s1 rot
        have hc2 : dlookup (applyRot s1 rot).children (applyRot s1 rot).childId
            = some c := by
          rw [ra, rb, hid, hch]
          exact hc
        obtain ⟨s5, hsave, _, _, _⟩ := saveTokens_ok hc2
        rw [hsave]
        exact ⟨s5, rfl⟩
      · simp only [if_true]
        have hc3 : dlookup
            (startReauth (resetTokensAndClient (applyRot s1 rot))
              (rr.getD "")).children
            (startReauth (resetTokensAndClient (applyRot s1 rot))
              (rr.getD "")).childId
            = some { (dlookup (applyRot s1 rot).children
                (applyRot s1 rot).childId).getD emptyChildRec with
                  access_token := some "", refresh_token := some "" } := by
          obtain ⟨hch3, hid3⟩ := startReauth_children _ _
          rw [hch3, hid3]
          exact (resetTokens_facts (applyRot s1 rot)).2.2.2
        obtain ⟨s5, hsave, _, _, _⟩ := saveTokens_ok hc3
        rw [hsave]
        exact ⟨s5, rfl⟩
  refine ⟨?_, hmain, ?_⟩
  · rcases op with ⟨v, rot⟩ | ⟨e, rot⟩
    · unfold apiCall
      rcases hv : validateChildTokens c with _ | _
      · obtain ⟨s1, hLib, _, _, _, _⟩ := hfalse hv
        rw [hLib]
        exact ⟨_, rfl⟩
      · obtain ⟨lib, s1, hLib, hid, hch, _⟩ := htrue hv
        rw [hLib]
        dsimp only
        obtain ⟨ra, rb, rc⟩ := applyRot_facts s1 rot
        have hc2 : dlookup (applyRot s1 rot).children (applyRot s1 rot).childId
            = some c := by
          rw [ra, rb, hid, hch]
          exact hc
        obtain ⟨s5, hsave, _, _, _⟩ := saveTokens_ok hc2
        rw [hsave]
        exact ⟨(v, s5), rfl⟩
    · obtain ⟨s2, h2⟩ := hmain e rot rfl
      exact ⟨(default, s2), h2⟩
  · intro hv
    unfold apiCall
    obtain ⟨s1, hLib, _, _, _, _⟩ := hfalse hv
    rw [hLib]
    exact ⟨_, rfl⟩

/-- Counterexample to C2 as stated: with a child id absent from the persisted
children map, `_api_call` raises (`KeyError` from `_current_child`, which
runs outside the `try`) instead of returning the default. -/
theorem c2_counterexample :
    apiCall .singleOrCallable ⟨"c1", [], none, none, [], 0⟩ "lbl" none (0 : Int)
        (.succeed 0 none)
      = .error .keyError := rfl

/-- Child record with a usable token, for the C2 witness. -/
def c2wChild : ChildRec := { emptyChildRec with access_token := some "tok" }

/-- Client state with the child present, for the C2 witness. -/
def c2wState : ClientState := ⟨"c1", [("c1", c2wChild)], none, none, [], 0⟩

/-- Witness for C2: a present child and a non-auth operation failure. -/
theorem c2_api_call_default_on_failure_witness :
    (∃ p, apiCall .singleOrCallable c2wState "lbl" none (42 : Int)
        (.raiseEx .otherError none) = .ok p)
    ∧ (∀ e rot,
        (OpBehavior.raiseEx ExKind.otherError none : OpBehavior Int)
          = OpBehavior.raiseEx e rot →
        ∃ s2, apiCall .singleOrCallable c2wState "lbl" none (42 : Int)
          (.raiseEx .otherError none) = .ok (42, s2))
    ∧ (validateChildTokens c2wChild = false →
        ∃ s2, apiCall .singleOrCallable c2wState "lbl" none (42 : Int)
          (.raiseEx .otherError none) = .ok (42, s2)) :=
  c2_api_call_default_on_failure .singleOrCallable c2wState "lbl" none 42
    (.raiseEx .otherError none) c2wChild (by decide)

/-- C3 (corrected): there is no reauth suppression keyed by
`(config_entry, child_key)` — *every* failing call (missing/blank tokens, or
an auth-class exception from the operation) starts one more reauth flow, so
a second failing call while one is outstanding starts another. -/
theorem c3_reauth_on_every_failing_call {α : Type} (mode : CallMode)
    (s : ClientState) (label : String) (rr : Option String) (default : α)
    (op : OpBehavior α) (c : ChildRec)
    (hc : dlookup s.children s.childId = some c)
    (hfail : validateChildTokens c = false
      ∨ (validateChildTokens c = true
          ∧ ∃ e rot, op = OpBehavior.raiseEx e rot ∧ isAuthEx mode e = true)) :
    ∃ v s2, apiCall mode s label rr default op = .ok (v, s2)
      ∧ s2.reauths.length = s.reauths.length + 1 := by
  obtain ⟨hfalse, htrue⟩ := isLib_cases hc
  have hstartCon : ∀ (t : ClientState) (r : String),
      (startReauth t r).constructions = t.constructions := by
    intro t r
    unfold startReauth
    rcases dlookup t.children t.childId with _ | c2
    · rfl
    · rfl
  rcases hfail with hv | ⟨hv, e, rot, hop, hae⟩
  · unfold apiCall
    obtain ⟨s1, hLib, hid, hch, hre, _⟩ := hfalse hv
    rw [hLib]
    dsimp only
    refine ⟨default, _, rfl, ?_⟩
    have hcr := (resetTokens_facts s1).2.2.2
    rw [startReauth_facts _ hcr]
    dsimp only
    rw [List.length_append]
    rw [show (resetTokensAndClient s1).reauths = s1.reauths from rfl, hre]
    rfl
  · subst hop
    unfold apiCall
    obtain ⟨lib, s1, hLib, hid, hch, hre⟩ := htrue hv
    rw [hLib]
    dsimp only
    rw [if_pos hae]
    have hc3 : dlookup
        (startReauth (resetTokensAndClient (applyRot s1 rot))
          (rr.getD "")).children
        (startReauth (resetTokensAndClient (applyRot s1 rot))
          (rr.getD "")).childId
        = some { (dlookup (applyRot s1 rot).children
            (applyRot s1 rot).childId).getD emptyChildRec with
              access_token := some "", refresh_token := some "" } := by
      obtain ⟨hch3, hid3⟩ := startReauth_children _ _
      rw [hch3, hid3]
      exact (resetTokens_facts (applyRot s1 rot)).2.2.2
    obtain ⟨s5, hsave, hsre, _, _⟩ := saveTokens_ok hc3
    rw [hsave]
    refine ⟨default, s5, rfl, ?_⟩
    rw [hsre]
    have hcr := (resetTokens_facts (applyRot s1 rot)).2.2.2
    rw [startReauth_facts _ hcr]
    dsimp only
    rw [List.length_append]
    rw [show (resetTokensAndClient (applyRot s1 rot)).reauths
        = (applyRot s1 rot).reauths from rfl]
    rw [(applyRot_facts s1 rot).2.2, hre]
    rfl

/-- Client state of a child whose tokens are absent, for C3. -/
def c3state : ClientState :=
  ⟨"c1", [("c1", { emptyChildRec with server := some "srv" })], none, none,
    [], 0⟩

/-- Run one `_api_call` and keep the resulting state (the call itself is a
plain fetch that would succeed if a session existed). -/
def runCall (mode : CallMode) (label : String) (rr : Option String)
    (s : ClientState) : ClientState :=
  match apiCall mode s label rr (0 : Int) (.succeed 0 none) with
  | .ok p => p.2
  | .error _ => s

/-- Counterexample to C3 as stated: a second failing call made while a reauth
request is already outstanding starts a *second* reauth flow. -/
theorem c3_counterexample :
    (runCall .singleOrCallable "marks" (some "marks") c3state).reauths.length = 1
    ∧ (runCall .singleOrCallable "marks" (some "marks")
        (runCall .singleOrCallable "marks" (some "marks")
          c3state)).reauths.length = 2 := by
  refine ⟨by decide, by decide⟩

/-- Witness for C3: a concrete failing call appends exactly one request. -/
theorem c3_reauth_on_every_failing_call_witness :
    ∃ v s2, apiCall .singleOrCallable c3state "marks" (some "marks") (0 : Int)
        (.succeed 0 none) = .ok (v, s2)
      ∧ s2.reauths.length = c3state.reauths.length + 1 :=
  c3_reauth_on_every_failing_call .singleOrCallable c3state "marks"
    (some "marks") 0 (.succeed 0 none)
    { emptyChildRec with server := some "srv" } (by decide)
    (Or.inl (by decide))

/-- C6 (corrected): with both tokens missing/empty, the call never constructs
a session object, appends exactly one reauth request whose reason is the
caller's `reauth_reason` argument (empty string when none) — the `label`
argument is only a log tag, not the fired reason — and returns the supplied
default. -/
theorem c6_missing_tokens_fail_fast {α : Type} (mode : CallMode)
    (s : ClientState) (label : String) (rr : Option String) (default : α)
    (op : OpBehavior α) (c : ChildRec)
    (hc : dlookup s.children s.childId = some c)
    (hat : truthyStr c.access_token = false)
    (hrt : truthyStr c.refresh_token = false) :
    ∃ s2, apiCall mode s label rr default op = .ok (default, s2)
      ∧ s2.constructions = s.constructions
      ∧ ∃ req, s2.reauths = s.reauths ++ [req] ∧ req.reason = rr.getD "" := by
  have hv : validateChildTokens c = false := by
    unfold validateChildTokens
    rw [hat, hrt]
    rfl
  obtain ⟨hfalse, _⟩ := isLib_cases hc
  obtain ⟨s1, hLib, hid, hch, hre, hcon⟩ := hfalse hv
  unfold apiCall
  rw [hLib]
  dsimp only
  refine ⟨_, rfl, ?_, ?_⟩
  · have h2 : ∀ (t : ClientState) (r : String),
        (startReauth t r).constructions = t.constructions := by
      intro t r
      unfold startReauth
      rcases dlookup t.children t.childId with _ | c2
      · rfl
      · rfl
    rw [h2]
    rw [show (resetTokensAndClient s1).constructions = s1.constructions from rfl]
    exact hcon
  · have hcr := (resetTokens_facts s1).2.2.2
    rw [startReauth_facts _ hcr]
    dsimp only
    refine ⟨⟨(resetTokensAndClient s1).childId,
      ((dlookup s1.children s1.childId).getD emptyChildRec).server,
      ((dlookup s1.children s1.childId).getD emptyChildRec).username,
      pyStr ((dlookup s1.children s1.childId).getD emptyChildRec).name ++ " "
        ++ pyStr ((dlookup s1.children s1.childId).getD emptyChildRec).surname,
      rr.getD ""⟩, ?_, rfl⟩
    rw [show (resetTokensAndClient s1).reauths = s1.reauths from rfl, hre]

/-- Client state with both tokens absent, for C6. -/
def c6state : ClientState :=
  ⟨"c1",
    [("c1", { emptyChildRec with server := some "srv", username := some "u" })],
    none, none, [], 0⟩

/-- Counterexample to C6 as stated: the reason of the fired reauth request is
the caller's `reauth_reason` argument, not the `label` — for the messages
fetch the label is `"fetching_messages"` while the fired reason is
`"messages"`. -/
theorem c6_counterexample :
    ((runCall .chain "fetching_messages" (some "messages") c6state).reauths.map
        fun r => r.reason) = ["messages"]
    ∧ "messages" ≠ "fetching_messages" := by
  refine ⟨by decide, by decide⟩

/-- Witness for C6 at the concrete messages-fetch call. -/
theorem c6_missing_tokens_fail_fast_witness :
    ∃ s2, apiCall .chain c6state "fetching_messages" (some "messages") (0 : Int)
        (.succeed 0 none) = .ok (0, s2)
      ∧ s2.constructions = c6state.constructions
      ∧ ∃ req, s2.reauths = c6state.reauths ++ [req]
          ∧ req.reason = (some "messages").getD "" :=
  c6_missing_tokens_fail_fast .chain c6state "fetching_messages"
    (some "messages") 0 (.succeed 0 none)
    { emptyChildRec with server := some "srv", username := some "u" }
    (by decide) (by decide) (by decide)

end Bakalari
